import Mathlib

/-!
Shallow embedding of the clinicsay-interview scraping pipeline.

The repository contains two generations of the Doctoralia scraper, both
exporting a class `DoctoraliaScraper`:
* the city-crawl variant (src/unnamed/part_000, `scrapers/doctoralia.scraper.ts`),
  embedded below in namespace `CityCrawl`;
* the specialty-indexed variant (src/unnamed/part_001), embedded in
  namespace `SpecialtyCrawl`.
It also contains an `AppointmentGenerator`
(src/src/generators/appointment.generator.ts), embedded in namespace
`AppointmentGen`.

JavaScript strings are modelled as Lean `String`/`List Char`; the regular
expressions appearing in the source are translated, call site by call site,
into explicit scanning functions whose global-replacement semantics
(leftmost match, non-overlapping, resume after the match) is implemented by
small state machines.  Instants (`Date`) are modelled as integers (minutes
or milliseconds since an epoch, as noted at each definition); `Math.random()`
draws are passed in as rational parameters constrained to `[0,1)`.
Network fetches are modelled as `Option`-valued oracles: `none` stands for
a thrown-and-caught error (or an explicit `null`), mirroring the source's
try/catch-to-default policy.
-/

namespace Clinicsay

/-! ## JavaScript string primitives -/

/-- Character class of the JavaScript regex `\s` (also the set trimmed by
`String.prototype.trim`): ASCII whitespace plus the Unicode space
characters. -/
def isWsChar (c : Char) : Bool :=
  c = ' ' || c = '\t' || c = '\n' || c = '\r' ||
  c.val = 0x0b || c.val = 0x0c || c.val = 0xa0 || c.val = 0x1680 ||
  (0x2000 ≤ c.val && c.val ≤ 0x200a) || c.val = 0x2028 || c.val = 0x2029 ||
  c.val = 0x202f || c.val = 0x205f || c.val = 0x3000 || c.val = 0xfeff

/-- `String.prototype.toLowerCase`, restricted to the alphabet the scraper
actually meets: ASCII letters and the Spanish accented letters. -/
def jsToLowerChar (c : Char) : Char :=
  if 'A' ≤ c ∧ c ≤ 'Z' then Char.ofNat (c.toNat + 32)
  else if c = 'Á' then 'á' else if c = 'É' then 'é' else if c = 'Í' then 'í'
  else if c = 'Ó' then 'ó' else if c = 'Ú' then 'ú' else if c = 'Ñ' then 'ñ'
  else if c = 'Ü' then 'ü' else c

/-- `String.prototype.toUpperCase` on the same alphabet. -/
def jsToUpperChar (c : Char) : Char :=
  if 'a' ≤ c ∧ c ≤ 'z' then Char.ofNat (c.toNat - 32)
  else if c = 'á' then 'Á' else if c = 'é' then 'É' else if c = 'í' then 'Í'
  else if c = 'ó' then 'Ó' else if c = 'ú' then 'Ú' else if c = 'ñ' then 'Ñ'
  else if c = 'ü' then 'Ü' else c

def jsToLower (s : String) : String := ⟨s.data.map jsToLowerChar⟩

def jsToUpper (s : String) : String := ⟨s.data.map jsToUpperChar⟩

/-- Substring test on character lists (`String.prototype.includes`). -/
def listContains : List Char → List Char → Bool
  | hay, needle =>
    if needle.isPrefixOf hay then true
    else match hay with
      | [] => false
      | _ :: t => listContains t needle

/-- `haystack.includes(needle)`. -/
def strContains (hay needle : String) : Bool := listContains hay.data needle.data

/-- `String.prototype.trim` on character lists. -/
def trimWsL (l : List Char) : List Char :=
  ((l.dropWhile isWsChar).reverse.dropWhile isWsChar).reverse

/-- `String.prototype.trim`. -/
def trimWs (s : String) : String := ⟨trimWsL s.data⟩

/-- `String.prototype.split(' ')`: split at every single space character,
keeping empty pieces (JS semantics). -/
def splitSp : List Char → List (List Char)
  | [] => [[]]
  | c :: rest =>
    match splitSp rest with
    | [] => [[c]]
    | h :: t => if c = ' ' then [] :: h :: t else (c :: h) :: t

/-- Number of pieces of `s.trim().split(' ')`, as used by the city-crawl
validator's surname check. -/
def spaceTokenCount (s : String) : Nat := (splitSp (trimWsL s.data)).length

/-! ## The address normalizer `cleanAddress`

The source applies a chain of `String.prototype.replace` calls:

  `.replace(/\s+/g, ' ')` → `collapseWs`
  `.replace(/\n/g, '')`   → `removeNl`
  `.replace(/\t/g, '')`   → `removeTab`
  `.replace(/,\s*,/g, ',')` → `collapseCommas`
  `.replace(/^\s*,\s*/, '')` → `dropLeadingComma`
  `.replace(/\s*,\s*$/, '')` → `dropTrailingComma`
  `.replace(/\s+,/g, ',')` → `stripWsBeforeComma`
  `.replace(/,\s+/g, ', ')` → `spaceAfterComma`
  `.trim()` → `trimWsL`

Each global replacement is a left-to-right, non-overlapping scan that
resumes after the replaced text; the scanners below implement exactly
that. -/

/-- Scanner for `replace(/\s+/g, ' ')`.  The boolean state records whether
the scanner is inside a whitespace run whose single `' '` has already been
emitted. -/
def collapseWsAux : Bool → List Char → List Char
  | _, [] => []
  | false, c :: rest =>
    if isWsChar c then ' ' :: collapseWsAux true rest
    else c :: collapseWsAux false rest
  | true, c :: rest =>
    if isWsChar c then collapseWsAux true rest
    else c :: collapseWsAux false rest

def collapseWs (l : List Char) : List Char := collapseWsAux false l

/-- `replace(/\n/g, '')`. -/
def removeNl (l : List Char) : List Char := l.filter (fun c => c ≠ '\n')

/-- `replace(/\t/g, '')`. -/
def removeTab (l : List Char) : List Char := l.filter (fun c => c ≠ '\t')

/-- Scanner for `replace(/,\s*,/g, ',')`.  State `none`: no pending comma.
State `some buf`: a `','` has been read and not yet emitted, followed by
the (reversed) whitespace buffer `buf`; if the next non-whitespace
character is another `','` the whole `,\s*,` match is replaced by a single
`','` and scanning resumes after the second comma. -/
def collapseCommasAux : Option (List Char) → List Char → List Char
  | none, [] => []
  | none, c :: rest =>
    if c = ',' then collapseCommasAux (some []) rest
    else c :: collapseCommasAux none rest
  | some buf, [] => ',' :: buf.reverse
  | some buf, c :: rest =>
    if c = ',' then ',' :: collapseCommasAux none rest
    else if isWsChar c then collapseCommasAux (some (c :: buf)) rest
    else ',' :: (buf.reverse ++ c :: collapseCommasAux none rest)

def collapseCommas (l : List Char) : List Char := collapseCommasAux none l

/-- `replace(/^\s*,\s*/, '')`: one anchored, non-global replacement.  The
match requires the comma; with no comma after the leading whitespace the
string is unchanged. -/
def dropLeadingComma (l : List Char) : List Char :=
  match l.dropWhile isWsChar with
  | ',' :: r => r.dropWhile isWsChar
  | _ => l

/-- `replace(/\s*,\s*$/, '')`: the mirrored anchored replacement at the end
of the string. -/
def dropTrailingComma (l : List Char) : List Char :=
  (dropLeadingComma l.reverse).reverse

/-- Scanner for `replace(/\s+,/g, ',')`.  The first argument buffers (in
reverse) a whitespace run that is dropped if a `','` follows it. -/
def stripWsBeforeCommaAux : List Char → List Char → List Char
  | buf, [] => buf.reverse
  | buf, c :: rest =>
    if isWsChar c then stripWsBeforeCommaAux (c :: buf) rest
    else if c = ',' then ',' :: stripWsBeforeCommaAux [] rest
    else buf.reverse ++ c :: stripWsBeforeCommaAux [] rest

def stripWsBeforeComma (l : List Char) : List Char := stripWsBeforeCommaAux [] l

/-- Scanner for `replace(/,\s+/g, ', ')`.  State 0: normal; state 1: a
`','` was just emitted (a following whitespace run starts a match);
state 2: inside the whitespace run of a match whose `', '` replacement is
already emitted. -/
def spaceAfterCommaAux : Nat → List Char → List Char
  | _, [] => []
  | 0, c :: rest =>
    if c = ',' then ',' :: spaceAfterCommaAux 1 rest
    else c :: spaceAfterCommaAux 0 rest
  | 1, c :: rest =>
    if isWsChar c then ' ' :: spaceAfterCommaAux 2 rest
    else if c = ',' then ',' :: spaceAfterCommaAux 1 rest
    else c :: spaceAfterCommaAux 0 rest
  | _ + 2, c :: rest =>
    if isWsChar c then spaceAfterCommaAux 2 rest
    else if c = ',' then ',' :: spaceAfterCommaAux 1 rest
    else c :: spaceAfterCommaAux 0 rest

def spaceAfterComma (l : List Char) : List Char := spaceAfterCommaAux 0 l

/-- `DoctoraliaScraper.cleanAddress` (city-crawl variant), the whole
replacement chain. -/
def cleanAddressL (l : List Char) : List Char :=
  trimWsL (spaceAfterComma (stripWsBeforeComma (dropTrailingComma
    (dropLeadingComma (collapseCommas (removeTab (removeNl (collapseWs l))))))))

def cleanAddress (s : String) : String := ⟨cleanAddressL s.data⟩

example : cleanAddress "Calle   el   Palmar   181" = "Calle el Palmar 181" := by decide
example : cleanAddress ", Calle 123 ," = "Calle 123" := by decide
example : cleanAddress "Calle\nel\tPalmar\n181" = "Calle el Palmar 181" := by decide
example : cleanAddress "Urb Pando  ,  ,  Lima" = "Urb Pando, Lima" := by decide
example : cleanAddress ",,,,,,," = ",," := by decide
example : cleanAddress "Calle 123,Lima" = "Calle 123,Lima" := by decide

/-- Specification predicate for the normalizer: every whitespace character
of the list is a plain space (so in particular no newline or tab
survives). -/
def WsIsSpace (l : List Char) : Prop :=
  ∀ c ∈ l, isWsChar c = true → c = ' '

/-- Specification predicate for the normalizer: no two adjacent whitespace
characters (whitespace runs are collapsed to single characters). -/
def NoWsPair (l : List Char) : Prop :=
  List.Chain' (fun a b => ¬(isWsChar a = true ∧ isWsChar b = true)) l

/-- The postal-code stripper `addr.split(/\s+\d{5}$/)[0]`: when the string
ends in a whitespace run followed by exactly five digits, the part before
the run; otherwise the whole string. -/
def stripPostalL (l : List Char) : List Char :=
  let r := l.reverse
  if (r.take 5).length = 5 ∧ (r.take 5).all Char.isDigit = true ∧
      ((r.drop 5).head?.map isWsChar = some true) then
    ((r.drop 5).dropWhile isWsChar).reverse
  else l

def stripPostal (s : String) : String := ⟨stripPostalL s.data⟩

example : stripPostal "Av. Arequipa 1234 15046" = "Av. Arequipa 1234" := by decide
example : stripPostal "Av. Arequipa 1234" = "Av. Arequipa 1234" := by decide
example : stripPostal "Av. Arequipa 123456" = "Av. Arequipa 123456" := by decide

/-! ## Data model (`DoctorData` and friends, part_000) -/

structure TreatmentData where
  name : String
  price : Option ℤ
  currency : Option String
  durationMinutes : Option ℕ
  deriving Repr, DecidableEq

/-- `AvailabilityData`; instants are integers (the unit — minutes or
milliseconds since an epoch — is fixed by each producing function).
`modality` keeps the source's string union `'in_person' | 'online'`. -/
structure AvailabilityData where
  startAt : ℤ
  endAt : ℤ
  modality : String
  deriving Repr, DecidableEq

structure DoctorData where
  fullName : String
  specialty : String
  city : String
  address : String
  phoneCountryCode : String
  phoneNumber : String
  rating : Option ℚ
  reviewCount : ℤ
  profileUrl : String
  treatments : List TreatmentData
  availability : List AvailabilityData
  deriving Repr, DecidableEq

structure DoctorSearchResult where
  doctorId : String
  doctorName : String
  doctorUrl : String
  addressId : String
  specialty : String
  city : String
  rating : Option ℚ
  reviewCount : ℤ
  deriving Repr, DecidableEq

namespace CityCrawl

/-! ### Validator of the city-crawl variant (part_000 `isValidDoctor`) -/

def blacklist : List String :=
  ["clínica", "centro médico", "hospital", "policlínico", "servicios médicos"]

/-- The denylist loop of `isValidDoctor`: does the lowercased name contain
any blacklisted term? -/
def hasBlacklistTerm (nameLower : String) : Bool :=
  blacklist.any (fun word => strContains nameLower word)

/-- All-caps heuristic shared by both validators:
`fullName === fullName.toUpperCase() && fullName.includes(' ')`. -/
def isAllCapsMultiWord (fullName : String) : Bool :=
  decide (fullName = jsToUpper fullName) && strContains fullName " "

/-- `DoctoraliaScraper.isValidDoctor` of the city-crawl variant. -/
def isValidDoctor (doctor : DoctorData) : Bool :=
  let name := jsToLower doctor.fullName
  if hasBlacklistTerm name then false
  else if isAllCapsMultiWord doctor.fullName then false
  else decide (2 ≤ spaceTokenCount doctor.fullName)

/-! ### Address extraction (part_000 `extractAddress`)

A parsed profile page is abstracted by the texts the cheerio selectors
would return, in document order:
* `itempropAddressSpans`: for each `[itemprop="address"]` block, the
  trimmed text of its first `span.text-truncate` (`""` when absent);
* `streetAddressPresent` / `streetAddressText`: whether
  `[data-__test__-id="street-address"]` selects anything, and the trimmed
  text of the first `span.text-truncate` of its parent;
* `metaStreet`: the `content` attribute of `meta[itemprop="streetAddress"]`;
* `containerSpans`: for each `div.overflow-hidden, div.d-flex` container,
  the trimmed texts of its spans;
* `pSpans`: for each `p.m-0`, the trimmed text of its first
  `span.text-truncate`. -/

structure Doc where
  itempropAddressSpans : List String
  streetAddressPresent : Bool
  streetAddressText : String
  metaStreet : Option String
  containerSpans : List (List String)
  pSpans : List String
  deriving Repr

/-- The regex `/^(Dr\.|Dra\.|Ps\s)/i` used to exclude person-name lines in
methods 4 and 5 of `extractAddress`. -/
def matchesAddrTitle (t : String) : Bool :=
  let l := (jsToLower t).data
  "dr.".data.isPrefixOf l || "dra.".data.isPrefixOf l ||
  (match l with
   | 'p' :: 's' :: c :: _ => isWsChar c
   | _ => false)

/-- The span filter of method 4 (free-text scan of layout containers). -/
def m4pred (t : String) : Bool :=
  let lower := jsToLower t
  decide (15 < t.length) && t.data.any Char.isDigit &&
  (strContains lower "calle" || strContains lower "av." ||
   strContains lower "avenida" || strContains lower "jr" ||
   strContains lower "urb" || strContains lower "psicoterapia online") &&
  !matchesAddrTitle t && !strContains t "Clínica" &&
  !strContains t "Centro" && !strContains t "Hospital"

/-- The paragraph filter of method 5. -/
def m5pred (t : String) : Bool :=
  decide (t ≠ "") && decide (15 < t.length) && t.data.any Char.isDigit &&
  (let lower := jsToLower t
   strContains lower "calle" || strContains lower "av." ||
   strContains lower "urb." || strContains lower "jr" ||
   strContains lower "psicoterapia online") &&
  !matchesAddrTitle t

/-- Methods 4 and 5 of `extractAddress`.  In method 4 the inner span loop
stops at the first span passing `m4pred`; a cleaned value that is empty is
falsy, so the outer container loop keeps scanning later containers. -/
def extractAddress45 (doc : Doc) : Option String :=
  match (doc.containerSpans.filterMap
      (fun spans => (spans.find? m4pred).map
        (fun t => cleanAddress (stripPostal t)))).find?
      (fun a => decide (a ≠ "")) with
  | some a => some a
  | none =>
    match doc.pSpans.find? m5pred with
    | some t =>
      let cleaned := cleanAddress (stripPostal t)
      if cleaned ≠ "" then some cleaned else none
    | none => none

/-- `DoctoraliaScraper.extractAddress`: the five-strategy cascade.  The
surrounding `try`/`catch` (which returns `null`) has no residue in the
total embedding. -/
def extractAddress (doc : Doc) : Option String :=
  match doc.itempropAddressSpans.findSome? (fun s =>
      if s ≠ "" ∧ 10 < s.length then
        let cleaned := cleanAddress (stripPostal s)
        if cleaned ≠ "" ∧ strContains cleaned "Núm. Colegiado" = false then
          some cleaned
        else none
      else none) with
  | some a => some a
  | none =>
    if doc.streetAddressPresent ∧ doc.streetAddressText ≠ "" ∧
        10 < doc.streetAddressText.length then
      some (cleanAddress (stripPostal doc.streetAddressText))
    else
      match doc.metaStreet with
      | some m => if m ≠ "" ∧ 5 < m.length then some (cleanAddress m)
                  else extractAddress45 doc
      | none => extractAddress45 doc

/-! ### Profile assembly (part_000 `scrapeDoctorProfile`) -/

/-- Alternatives of `/^(Dr\.|Dra\.|Ps\.?|Odont\.|Lic\.|Mg\.)\s*/gi` in
order (the optional dot of `Ps\.?` is tried greedily first). -/
def titleAlternatives : List String :=
  ["dr.", "dra.", "ps.", "ps", "odont.", "lic.", "mg."]

/-- `doctorName.replace(/^(Dr\.|Dra\.|Ps\.?|Odont\.|Lic\.|Mg\.)\s*/gi, '')`.
Anchored at the start without the multiline flag, the global regex strips
at most one title prefix together with the whitespace following it. -/
def stripTitlePrefix (s : String) : String :=
  let low := (jsToLower s).data
  match titleAlternatives.find? (fun t => t.data.isPrefixOf low) with
  | some t => ⟨(s.data.drop t.length).dropWhile isWsChar⟩
  | none => s

example : trimWs (stripTitlePrefix "Dr. Juan Pérez") = "Juan Pérez" := by decide
example : trimWs (stripTitlePrefix "Dra. Ana Luna") = "Ana Luna" := by decide

/-- JavaScript `x || y` for an optional string: both `null` and `""` are
falsy. -/
def jsOrStr (x : Option String) (y : String) : String :=
  match x with
  | some a => if a = "" then y else a
  | none => y

/-- The parts of a profile page that `scrapeDoctorProfile` obtains from
sources modelled as external here: the parsed document, the phone
extraction result, and the final treatment and availability lists. -/
structure ProfileParts where
  doc : Doc
  phoneNumber : String
  treatments : List TreatmentData
  availability : List AvailabilityData
  deriving Repr

/-- The record assembly of `scrapeDoctorProfile`: name normalization,
address with the `Consultorio en <city>` fallback, fixed `+51` country
code, and pass-through of the search-result metadata. -/
def mkDoctor (r : DoctorSearchResult) (p : ProfileParts) : DoctorData :=
  { fullName := trimWs (stripTitlePrefix r.doctorName)
    specialty := r.specialty
    city := r.city
    address := jsOrStr (extractAddress p.doc) ("Consultorio en " ++ r.city)
    phoneCountryCode := "+51"
    phoneNumber := p.phoneNumber
    rating := r.rating
    reviewCount := r.reviewCount
    profileUrl := r.doctorUrl
    treatments := p.treatments
    availability := p.availability }

/-! ### Crawl loop (part_000 `scrapeDoctorsByCity` / `scrapeDoctors`) -/

/-- State threaded through the dedup loop: the process-scoped
`scrapedUrls` set, the accepted records, and the per-city `processed`
counter. -/
structure CrawlState where
  scrapedUrls : List String
  doctors : List DoctorData
  processed : Nat

/-- The second loop of `scrapeDoctorsByCity`: skip once the per-city cap
is reached, skip URLs already accepted, fetch and assemble the profile
(`none` models a caught failure or a `null` profile), validate, and only
then record the URL and the doctor. -/
def processResults (fetchProfile : DoctorSearchResult → Option ProfileParts)
    (maxDoctorsPerCity : Nat) :
    List DoctorSearchResult → CrawlState → CrawlState
  | [], s => s
  | r :: rs, s =>
    if maxDoctorsPerCity ≤ s.processed then s
    else if s.scrapedUrls.contains r.doctorUrl then
      processResults fetchProfile maxDoctorsPerCity rs s
    else
      match fetchProfile r with
      | none => processResults fetchProfile maxDoctorsPerCity rs s
      | some p =>
        let doctor := mkDoctor r p
        if isValidDoctor doctor then
          processResults fetchProfile maxDoctorsPerCity rs
            ⟨r.doctorUrl :: s.scrapedUrls, s.doctors ++ [doctor], s.processed + 1⟩
        else processResults fetchProfile maxDoctorsPerCity rs s

/-- The pagination loop of `scrapeDoctorsByCity`: pages are fetched in
order up to `maxPages`; a failed fetch (`none`) is caught, logged and
skipped; an empty result page stops the pagination. -/
def collectSearchResults (pageFetch : Nat → Option (List DoctorSearchResult)) :
    Nat → Nat → List DoctorSearchResult
  | 0, _ => []
  | fuel + 1, page =>
    match pageFetch page with
    | none => collectSearchResults pageFetch fuel (page + 1)
    | some [] => []
    | some rs => rs ++ collectSearchResults pageFetch fuel (page + 1)

/-- The external collaborators and configuration of one run. -/
structure ScrapeEnv where
  pageFetch : String → Nat → Option (List DoctorSearchResult)
  fetchProfile : DoctorSearchResult → Option ProfileParts
  maxDoctorsPerCity : Nat
  maxPages : Nat

/-- `scrapeDoctorsByCity`: paginate, then run the dedup loop starting from
the process-scoped URL set; returns the updated set and the doctors
accepted for this city. -/
def scrapeDoctorsByCity (env : ScrapeEnv) (city : String)
    (scrapedUrls : List String) : List String × List DoctorData :=
  let results := collectSearchResults (env.pageFetch city) env.maxPages 1
  let out := processResults env.fetchProfile env.maxDoctorsPerCity results
    ⟨scrapedUrls, [], 0⟩
  (out.scrapedUrls, out.doctors)

/-- The city loop of `scrapeDoctors`, threading the `scrapedUrls` set. -/
def crawlCities (env : ScrapeEnv) : List String → List String → List DoctorData
  | [], _ => []
  | city :: rest, urls =>
    let cityOut := scrapeDoctorsByCity env (trimWs city) urls
    cityOut.2 ++ crawlCities env rest cityOut.1

/-- All records produced by one run. -/
def producedDoctors (env : ScrapeEnv) (cities : List String) : List DoctorData :=
  crawlCities env cities []

/-- `scrapeDoctors`: the pipeline root.  Every failure below it is already
absorbed by the `Option` oracles; the root throws exactly when no doctor
was produced.  The `saveJsonFiles` call of the source catches its own
errors (`Logger.warn` only) and so has no residue here. -/
def scrapeDoctors (env : ScrapeEnv) (cities : List String) :
    Except String (List DoctorData) :=
  let allDoctors := producedDoctors env cities
  if allDoctors = [] then Except.error "No doctors found"
  else Except.ok allDoctors

end CityCrawl

namespace SpecialtyCrawl

/-! ### Validator of the specialty-indexed variant (part_001
`isValidDoctor`) -/

def clinicKeywords : List String :=
  ["clínica", "clinica", "centro", "hospital", "policlínico", "policlinico",
   "consultorio", "servicios médicos", "holodoc", "avansalud", "centenario",
   "internacional", "stella maris", "cerebro", "san pablo", "digestalud"]

/-- The keyword loop of `isValidDoctor`: does the lowercased name contain
any denylisted keyword? -/
def hasClinicKeyword (nameLower : String) : Bool :=
  clinicKeywords.any (fun keyword => strContains nameLower keyword)

def isAsciiUpperChar (c : Char) : Bool := 'A' ≤ c && c ≤ 'Z'

def isAsciiLowerChar (c : Char) : Bool := 'a' ≤ c && c ≤ 'z'

/-- The regex `/^[A-Z][a-z]+ [A-Z][a-z]+/` (person-name shape). -/
def personNamePrefix : List Char → Bool
  | c :: rest =>
    isAsciiUpperChar c &&
    (let low := rest.takeWhile isAsciiLowerChar
     let rest' := rest.dropWhile isAsciiLowerChar
     !low.isEmpty &&
     (match rest' with
      | ' ' :: c2 :: rest2 =>
        isAsciiUpperChar c2 && !(rest2.takeWhile isAsciiLowerChar).isEmpty
      | _ => false))
  | [] => false

/-- `DoctoraliaScraper.isValidDoctor` of the specialty-indexed variant:
keyword denylist, all-caps heuristic, name-equals-specialty check; both
remaining branches accept. -/
def isValidDoctor (doctor : DoctorData) : Bool :=
  let nameLower := jsToLower doctor.fullName
  if hasClinicKeyword nameLower then false
  else if CityCrawl.isAllCapsMultiWord doctor.fullName then false
  else if doctor.fullName = doctor.specialty then false
  else if personNamePrefix doctor.fullName.data then true
  else true

end SpecialtyCrawl

/-! ## Randomness primitives

`Math.random()` draws are passed in as rationals; the specification of
`Math.random` confines them to `[0,1)`, which the theorems take as a
hypothesis. -/

/-- `Math.floor` on a rational. -/
def jsFloor (q : ℚ) : ℤ := ⌊q⌋

/-- `Math.round` on a rational (round half up). -/
def jsRound (q : ℚ) : ℤ := ⌊q + 1/2⌋

namespace CityCrawl

/-! ### Synthetic availability (part_000 `generateMockAvailability`) and
the slot endpoint (part_000 `fetchAvailability`)

Instants are minutes since an epoch; a calendar day is 1440 minutes (the
civil-time model has no daylight-saving jumps).  `todayBase` is the minute
instant of today's local midnight and `todayDow` is today's `getDay()`
value (0 = Sunday … 6 = Saturday), so day `today + day` has weekday
`(todayDow + day) % 7`. -/

def generateMockAvailability (todayBase : ℤ) (todayDow : ℕ) (isOnline : Bool) :
    List AvailabilityData :=
  (List.range 14).flatMap (fun i =>
    let day := i + 1
    if (todayDow + day) % 7 = 0 ∨ (todayDow + day) % 7 = 6 then []
    else
      let base := todayBase + day * 1440
      let modality := if isOnline then "online" else "in_person"
      [⟨base + 9 * 60, base + 13 * 60, modality⟩,
       ⟨base + 15 * 60, base + 19 * 60, modality⟩])

/-- One slot of the availability endpoint's `_items` payload; a missing or
empty `booking_url` is falsy. -/
structure ApiSlot where
  start : ℤ
  booked : Bool
  bookingUrl : String
  deriving Repr, DecidableEq

/-- The slot-normalization loop of `fetchAvailability`: keep slots that
are not booked and carry a booking reference; the end instant is
`endAt.setHours(startAt.getHours() + 1)`, one hour after the start in the
civil-time model. -/
def fetchAvailability (slots : List ApiSlot) : List AvailabilityData :=
  slots.filterMap (fun slot =>
    if !slot.booked ∧ slot.bookingUrl ≠ "" then
      some ⟨slot.start, slot.start + 60, "in_person"⟩
    else none)

/-! ### Synthetic treatments (part_000 `generateMockTreatments`) -/

def treatmentTable : List (String × List String) :=
  [("cardio", ["Consulta cardiológica", "Electrocardiograma", "Ecocardiograma"]),
   ("derma", ["Consulta dermatológica", "Tratamiento acné", "Peeling"]),
   ("pediatr", ["Consulta pediátrica", "Control niño sano", "Vacunación"]),
   ("psico", ["Terapia individual", "Terapia pareja", "Evaluación psicológica"]),
   ("psiquiatr", ["Consulta psiquiátrica", "Evaluación", "Seguimiento"]),
   ("dent", ["Limpieza dental", "Blanqueamiento", "Ortodoncia"]),
   ("nutri", ["Consulta nutricional", "Plan alimenticio"])]

end CityCrawl

/-- The name-selection loop shared by both `generateMockTreatments`
variants: the first table key contained in the lowercased specialty wins;
otherwise the single generic entry. -/
def mockNames (table : List (String × List String)) (specialty : String) :
    List String :=
  match table.find? (fun kv => strContains (jsToLower specialty) kv.1) with
  | some kv => kv.2
  | none => ["Consulta general"]

/-- One synthesized treatment:
`price: Math.round(Math.random() * 200 + 50)`, `currency: 'PEN'`,
`durationMinutes: [30, 45, 60][Math.floor(Math.random() * 3)]` (an
out-of-range index would be `undefined`, i.e. `none`). -/
def mkMockTreatment (name : String) (priceRand durRand : ℚ) : TreatmentData :=
  { name := name
    price := some (jsRound (priceRand * 200 + 50))
    currency := some "PEN"
    durationMinutes := ([30, 45, 60] : List ℕ).get? (jsFloor (durRand * 3)).toNat }

/-- The `names.map(...)` call: item `i` consumes the draws `rand (k + 2*i)`
(price) and `rand (k + 2*i + 1)` (duration). -/
def mkMockTreatments (rand : ℕ → ℚ) : ℕ → List String → List TreatmentData
  | _, [] => []
  | k, name :: rest =>
    mkMockTreatment name (rand k) (rand (k + 1)) ::
      mkMockTreatments rand (k + 2) rest

/-- Decimal rendering of a natural number (JavaScript number-to-string
conversion for non-negative integers). -/
def natToDecString (n : ℕ) : String :=
  ⟨(Nat.digits 10 n).reverse.map (fun d => Char.ofNat (48 + d))⟩

namespace CityCrawl

/-- `DoctoraliaScraper.generateMockTreatments` of the city-crawl
variant. -/
def generateMockTreatments (specialty : String) (rand : ℕ → ℚ) :
    List TreatmentData :=
  mkMockTreatments rand 0 (mockNames treatmentTable specialty)

/-- `generatePhone`: the string `` `9${Math.floor(Math.random() * 90000000
+ 10000000)}` ``. -/
def generatePhone (r : ℚ) : String :=
  "9" ++ natToDecString (jsFloor (r * 90000000 + 10000000)).toNat

end CityCrawl

namespace SpecialtyCrawl

def treatmentsBySpecialty : List (String × List String) :=
  [("cardio", ["Consulta cardiológica", "Electrocardiograma", "Ecocardiograma", "Holter"]),
   ("derma", ["Consulta dermatológica", "Tratamiento acné", "Peeling", "Criocirugía"]),
   ("pediatr", ["Consulta pediátrica", "Control niño sano", "Vacunación"]),
   ("psico", ["Terapia individual", "Terapia pareja", "Evaluación psicológica"]),
   ("psiquiatr", ["Consulta psiquiátrica", "Evaluación", "Seguimiento"]),
   ("dent", ["Limpieza dental", "Blanqueamiento", "Ortodoncia"]),
   ("nutri", ["Consulta nutricional", "Plan alimenticio", "Seguimiento"])]

/-- `DoctoraliaScraper.generateMockTreatments` of the specialty-indexed
variant. -/
def generateMockTreatments (specialty : String) (rand : ℕ → ℚ) :
    List TreatmentData :=
  mkMockTreatments rand 0 (mockNames treatmentsBySpecialty specialty)

/-- `generatePhoneNumber`, textually identical to the city-crawl
`generatePhone`. -/
def generatePhoneNumber (r : ℚ) : String :=
  "9" ++ natToDecString (jsFloor (r * 90000000 + 10000000)).toNat

end SpecialtyCrawl

namespace AppointmentGen

/-! ## `AppointmentGenerator` (src/src/generators/appointment.generator.ts)

Instants are milliseconds since an epoch (`Date.getTime()`).  Each call of
`generateAppointment` consumes one `DrawPack` of `Math.random()` values in
call order. -/

structure Block where
  start_at : ℤ
  end_at : ℤ
  deriving Repr, DecidableEq

structure GenDoctor where
  id : ℤ
  availability : List Block
  treatments : List ℤ
  deriving Repr

structure AppointmentData where
  doctorId : ℤ
  patientId : ℤ
  treatmentId : ℤ
  startAt : ℤ
  endAt : ℤ
  status : String
  deriving Repr, DecidableEq

structure DrawPack where
  availRand : ℚ
  treatmentRand : ℚ
  patientRand : ℚ
  slotRand : ℚ
  statusRand : ℚ

/-- The range `[0,1)` guaranteed by `Math.random()` for all five draws of
a pack. -/
def DrawPack.inRange (d : DrawPack) : Prop :=
  (0 ≤ d.availRand ∧ d.availRand < 1) ∧
  (0 ≤ d.treatmentRand ∧ d.treatmentRand < 1) ∧
  (0 ≤ d.patientRand ∧ d.patientRand < 1) ∧
  (0 ≤ d.slotRand ∧ d.slotRand < 1) ∧
  (0 ≤ d.statusRand ∧ d.statusRand < 1)

/-- `const slotDuration = 30 * 60 * 1000`. -/
def slotDuration : ℤ := 30 * 60 * 1000

/-- The status draw at the end of `generateAppointment`. -/
def statusOf (rand : ℚ) : String :=
  if rand < 7/10 then "scheduled"
  else if rand < 9/10 then "completed"
  else "cancelled"

/-- `AppointmentGenerator.generateAppointment`.  An out-of-range random
index yields `undefined` in JavaScript and the subsequent property access
throws, which the caller catches; both paths produce no appointment and
are modelled as `none`. -/
def generateAppointment (doctor : GenDoctor) (patients : List ℤ)
    (d : DrawPack) : Option AppointmentData :=
  match doctor.availability.get?
          (jsFloor (d.availRand * doctor.availability.length)).toNat,
        doctor.treatments.get?
          (jsFloor (d.treatmentRand * doctor.treatments.length)).toNat,
        patients.get? (jsFloor (d.patientRand * patients.length)).toNat with
  | some availability, some treatment, some patient =>
    let startDate := availability.start_at
    let endDate := availability.end_at
    let availabilityDuration := endDate - startDate
    let maxSlots := jsFloor ((availabilityDuration : ℚ) / (slotDuration : ℚ))
    if maxSlots ≤ 0 then none
    else
      let randomSlot := jsFloor (d.slotRand * maxSlots)
      let startAt := startDate + randomSlot * slotDuration
      let endAt := startAt + slotDuration
      if endDate < endAt then none
      else some { doctorId := doctor.id, patientId := patient,
                  treatmentId := treatment, startAt := startAt, endAt := endAt,
                  status := statusOf d.statusRand }
  | _, _, _ => none

/-- The per-doctor loop of `AppointmentGenerator.generate`; `k` is the
index of the next unconsumed `DrawPack`. -/
def generateLoop (patients : List ℤ) (numAppointmentsPerDoctor : ℕ)
    (draws : ℕ → DrawPack) : List GenDoctor → ℕ → List AppointmentData
  | [], _ => []
  | doctor :: rest, k =>
    if doctor.availability.isEmpty then
      generateLoop patients numAppointmentsPerDoctor draws rest k
    else if doctor.treatments.isEmpty then
      generateLoop patients numAppointmentsPerDoctor draws rest k
    else
      let numAppointments :=
        min numAppointmentsPerDoctor (doctor.availability.length * 4)
      (List.range numAppointments).filterMap
          (fun i => generateAppointment doctor patients (draws (k + i)))
        ++ generateLoop patients numAppointmentsPerDoctor draws rest
            (k + numAppointments)

/-- `AppointmentGenerator.generate`. -/
def generate (doctors : List GenDoctor) (patients : List ℤ)
    (numAppointmentsPerDoctor : ℕ) (draws : ℕ → DrawPack) :
    List AppointmentData :=
  generateLoop patients numAppointmentsPerDoctor draws doctors 0

end AppointmentGen

/-! ## Concrete inputs used by witnesses and counterexamples -/

/-- A profile document on which every address strategy fails. -/
def emptyDoc : CityCrawl.Doc :=
  { itempropAddressSpans := []
    streetAddressPresent := false
    streetAddressText := ""
    metaStreet := none
    containerSpans := []
    pSpans := [] }

def sampleResult : DoctorSearchResult :=
  { doctorId := "77"
    doctorName := "Dr. Juan Perez"
    doctorUrl := "https://www.doctoralia.pe/juan-perez/cardiologo/lima"
    addressId := "5"
    specialty := "Cardiólogo"
    city := "Lima"
    rating := some (45 / 10)
    reviewCount := 12 }

def sampleParts : CityCrawl.ProfileParts :=
  { doc := emptyDoc
    phoneNumber := "912345678"
    treatments := [{ name := "Consulta general", price := some 100,
                     currency := some "PEN", durationMinutes := some 30 }]
    availability := [] }

/-- A run environment with one city page holding one listing. -/
def envW : CityCrawl.ScrapeEnv :=
  { pageFetch := fun _ page => if page = 1 then some [sampleResult] else some []
    fetchProfile := fun _ => some sampleParts
    maxDoctorsPerCity := 45
    maxPages := 3 }

def baseDoctor : DoctorData :=
  { fullName := "Juan Pérez García"
    specialty := "Cardiólogo"
    city := "Lima"
    address := "Av. Test 123"
    phoneCountryCode := "+51"
    phoneNumber := "912345678"
    rating := some (45 / 10)
    reviewCount := 100
    profileUrl := "https://www.doctoralia.pe/juan-perez/cardiologo/lima"
    treatments := []
    availability := [] }

/-- A record whose name contains the denylist term `centro` (and none of
the city-crawl blacklist terms). -/
def centroDoc : DoctorData := { baseDoctor with fullName := "Centro Holístico" }

/-- A record named after a known facility (test fixture of the repo). -/
def clinicaDoc : DoctorData := { baseDoctor with fullName := "Clínica San Pablo" }

/-- A record whose name has a single whitespace token. -/
def juanDoc : DoctorData := { baseDoctor with fullName := "Juan" }

def sampleGenDoctor : AppointmentGen.GenDoctor :=
  { id := 1
    availability := [{ start_at := 0, end_at := 7200000 }]
    treatments := [3] }

def zeroPack : AppointmentGen.DrawPack :=
  { availRand := 0, treatmentRand := 0, patientRand := 0,
    slotRand := 0, statusRand := 0 }

/-! ## Theorems -/

/-! ### C1 — the organization denylist -/

/-- C1 counterexample: `centro` is a term of the denylist listed in the
code (the specialty-variant keyword list), `centroDoc`'s full name
contains it case-insensitively, yet the city-crawl `isValidDoctor`
accepts the record, because that variant's blacklist only holds the
two-word term `centro médico`. -/
theorem C1_counterexample :
    "centro" ∈ SpecialtyCrawl.clinicKeywords ∧
    strContains (jsToLower centroDoc.fullName) "centro" = true ∧
    CityCrawl.isValidDoctor centroDoc = true := by decide

/-- C1 (amended): each scraper variant rejects every record whose
lowercased full name contains a term of that variant's own denylist —
the full enumerated list (bare `centro`, unaccented `clinica`, and the
named facilities included) is the specialty-variant's; the city-crawl
variant's blacklist is `clínica`, `centro médico`, `hospital`,
`policlínico`, `servicios médicos`. -/
theorem C1_denylist_rejects :
    (∀ d : DoctorData, CityCrawl.hasBlacklistTerm (jsToLower d.fullName) = true →
      CityCrawl.isValidDoctor d = false) ∧
    (∀ d : DoctorData, SpecialtyCrawl.hasClinicKeyword (jsToLower d.fullName) = true →
      SpecialtyCrawl.isValidDoctor d = false) := by
  constructor <;> intro d h <;>
    simp only [CityCrawl.isValidDoctor, SpecialtyCrawl.isValidDoctor, h, if_true]

/-- C1 witness: both validators reject the repository's own fixture
`Clínica San Pablo`. -/
theorem C1_witness :
    CityCrawl.isValidDoctor clinicaDoc = false ∧
    SpecialtyCrawl.isValidDoctor clinicaDoc = false :=
  ⟨C1_denylist_rejects.1 clinicaDoc (by decide),
   C1_denylist_rejects.2 clinicaDoc (by decide)⟩

/-! ### C5 — surname check and default acceptance -/

/-- C5 counterexample: `Juan` has a single whitespace token, yet the
specialty-variant `isValidDoctor` accepts it — that variant has no
token-count rule. -/
theorem C5_counterexample :
    spaceTokenCount juanDoc.fullName < 2 ∧
    SpecialtyCrawl.isValidDoctor juanDoc = true := by decide

/-- C5 (amended): the city-crawl validator rejects every record whose
trimmed name splits into fewer than 2 space-separated tokens, and both
validators accept by default: the city-crawl one whenever none of its
three rules (denylist, all-caps multi-word, too-few-tokens) fires, the
specialty-indexed one whenever none of its three rules (denylist,
all-caps multi-word, name-equals-category) fires — the token-count rule
exists only in the city-crawl variant. -/
theorem C5_default_accept :
    (∀ d : DoctorData, spaceTokenCount d.fullName < 2 →
      CityCrawl.isValidDoctor d = false) ∧
    (∀ d : DoctorData, CityCrawl.hasBlacklistTerm (jsToLower d.fullName) = false →
      CityCrawl.isAllCapsMultiWord d.fullName = false →
      2 ≤ spaceTokenCount d.fullName →
      CityCrawl.isValidDoctor d = true) ∧
    (∀ d : DoctorData, SpecialtyCrawl.hasClinicKeyword (jsToLower d.fullName) = false →
      CityCrawl.isAllCapsMultiWord d.fullName = false →
      d.fullName ≠ d.specialty →
      SpecialtyCrawl.isValidDoctor d = true) := by
  refine ⟨fun d h => ?_, fun d h1 h2 h3 => ?_, fun d h1 h2 h3 => ?_⟩
  · simp only [CityCrawl.isValidDoctor]
    split
    · rfl
    · split
      · rfl
      · simpa using Nat.not_le.mpr h
  · simp only [CityCrawl.isValidDoctor, h1, h2, Bool.false_eq_true, if_false,
      decide_eq_true_eq]
    exact h3
  · simp only [SpecialtyCrawl.isValidDoctor, h1, h2, Bool.false_eq_true, if_false,
      if_neg h3, ite_self]

/-- C5 witness: the three amended statements at concrete records. -/
theorem C5_witness :
    CityCrawl.isValidDoctor juanDoc = false ∧
    CityCrawl.isValidDoctor baseDoctor = true ∧
    SpecialtyCrawl.isValidDoctor baseDoctor = true :=
  ⟨C5_default_accept.1 juanDoc (by decide),
   C5_default_accept.2.1 baseDoctor (by decide) (by decide) (by decide),
   C5_default_accept.2.2 baseDoctor (by decide) (by decide) (by decide)⟩

/-! ### C6 — address extraction is total, with a synthesized fallback -/

/-- C6: `extractAddress` is a total function into `Option String` (it can
never raise), and whenever it returns `none` the assembled record's
address is the synthesized `Consultorio en <city>` string. -/
theorem C6_address_fallback :
    ∀ (r : DoctorSearchResult) (p : CityCrawl.ProfileParts),
      CityCrawl.extractAddress p.doc = none →
      (CityCrawl.mkDoctor r p).address = "Consultorio en " ++ r.city := by
  intro r p h
  simp only [CityCrawl.mkDoctor, CityCrawl.jsOrStr, h]

/-- C6 witness: on a document where every strategy fails, the sample
listing's record gets the fallback address. -/
theorem C6_witness :
    CityCrawl.extractAddress emptyDoc = none ∧
    (CityCrawl.mkDoctor sampleResult sampleParts).address = "Consultorio en Lima" :=
  ⟨by decide, C6_address_fallback sampleResult sampleParts (by decide)⟩

/-! ### C7 — every slot ends strictly after it starts -/

/-- C7: every slot synthesized by `generateMockAvailability` and every
slot accepted from the slot endpoint by `fetchAvailability` has its end
instant strictly greater than its start instant. -/
theorem C7_slot_end_gt_start :
    (∀ (todayBase : ℤ) (todayDow : ℕ) (isOnline : Bool),
      ∀ s ∈ CityCrawl.generateMockAvailability todayBase todayDow isOnline,
        s.startAt < s.endAt) ∧
    (∀ slots : List CityCrawl.ApiSlot,
      ∀ s ∈ CityCrawl.fetchAvailability slots, s.startAt < s.endAt) := by
  constructor
  · intro todayBase todayDow isOnline s hs
    simp only [CityCrawl.generateMockAvailability, List.mem_flatMap,
      List.mem_range] at hs
    obtain ⟨i, _, hmem⟩ := hs
    by_cases hwk : (todayDow + (i + 1)) % 7 = 0 ∨ (todayDow + (i + 1)) % 7 = 6
    · simp [hwk] at hmem
    · simp only [if_neg hwk, List.mem_cons, List.mem_singleton,
        List.not_mem_nil, or_false] at hmem
      rcases hmem with h | h <;> subst h <;> simp
  · intro slots s hs
    simp only [CityCrawl.fetchAvailability, List.mem_filterMap] at hs
    obtain ⟨slot, _, heq⟩ := hs
    split at heq
    · cases heq
      simp
    · cases heq

/-- C7 witness: a concrete mock slot and a concrete endpoint slot. -/
theorem C7_witness :
    ((⟨1980, 2220, "in_person"⟩ : AvailabilityData) ∈
      CityCrawl.generateMockAvailability 0 0 false ∧ (1980 : ℤ) < 2220) ∧
    ((⟨500, 560, "in_person"⟩ : AvailabilityData) ∈
      CityCrawl.fetchAvailability [⟨500, false, "https://booking.test"⟩] ∧
      (500 : ℤ) < 560) :=
  ⟨⟨by decide, C7_slot_end_gt_start.1 0 0 false ⟨1980, 2220, "in_person"⟩ (by decide)⟩,
   ⟨by decide, C7_slot_end_gt_start.2 [⟨500, false, "https://booking.test"⟩]
      ⟨500, 560, "in_person"⟩ (by decide)⟩⟩

/-! ### C2 — deduplication by canonical profile URL -/

theorem mkDoctor_profileUrl (r : DoctorSearchResult) (p : CityCrawl.ProfileParts) :
    (CityCrawl.mkDoctor r p).profileUrl = r.doctorUrl := rfl

/-- Invariant of the dedup loop: accepted profile URLs are pairwise
distinct, always recorded in the URL set, the set only grows, and no
accepted URL comes from the forbidden set `U` (kept inside the URL
set). -/
theorem processResults_invariant
    (fetch : DoctorSearchResult → Option CityCrawl.ProfileParts)
    (maxN : Nat) (U : List String) :
    ∀ (rs : List DoctorSearchResult) (s : CityCrawl.CrawlState),
      (s.doctors.map (fun d => d.profileUrl)).Nodup →
      (∀ d ∈ s.doctors, d.profileUrl ∈ s.scrapedUrls) →
      (∀ u ∈ U, u ∈ s.scrapedUrls) →
      (∀ d ∈ s.doctors, d.profileUrl ∉ U) →
      ((CityCrawl.processResults fetch maxN rs s).doctors.map
          (fun d => d.profileUrl)).Nodup ∧
      (∀ d ∈ (CityCrawl.processResults fetch maxN rs s).doctors,
        d.profileUrl ∈ (CityCrawl.processResults fetch maxN rs s).scrapedUrls) ∧
      (∀ u ∈ U, u ∈ (CityCrawl.processResults fetch maxN rs s).scrapedUrls) ∧
      (∀ d ∈ (CityCrawl.processResults fetch maxN rs s).doctors,
        d.profileUrl ∉ U) := by
  intro rs
  induction rs with
  | nil => intro s h1 h2 h3 h4; exact ⟨h1, h2, h3, h4⟩
  | cons r rest ih =>
    intro s h1 h2 h3 h4
    rw [CityCrawl.processResults]
    by_cases hcap : maxN ≤ s.processed
    · rw [if_pos hcap]; exact ⟨h1, h2, h3, h4⟩
    · rw [if_neg hcap]
      by_cases hseen : s.scrapedUrls.contains r.doctorUrl = true
      · rw [if_pos hseen]; exact ih s h1 h2 h3 h4
      · rw [if_neg hseen]
        have hnotmem : r.doctorUrl ∉ s.scrapedUrls := by
          intro hmem
          exact hseen (List.elem_iff.mpr hmem)
        cases hfetch : fetch r with
        | none => exact ih s h1 h2 h3 h4
        | some p =>
          dsimp only
          by_cases hvalid : CityCrawl.isValidDoctor (CityCrawl.mkDoctor r p) = true
          · rw [if_pos hvalid]
            apply ih
            · simp only [List.map_append, List.map_cons, List.map_nil,
                mkDoctor_profileUrl]
              rw [List.nodup_append]
              refine ⟨h1, List.nodup_singleton _, ?_⟩
              intro u hu
              simp only [List.mem_singleton]
              intro hequ
              obtain ⟨d, hd, hdu⟩ := List.mem_map.mp hu
              apply hnotmem
              rw [← hequ, ← hdu]
              exact h2 d hd
            · intro d hd
              rcases List.mem_append.mp hd with hd | hd
              · exact List.mem_cons_of_mem _ (h2 d hd)
              · simp only [List.mem_singleton] at hd
                subst hd
                simp [mkDoctor_profileUrl]
            · intro u hu
              exact List.mem_cons_of_mem _ (h3 u hu)
            · intro d hd
              rcases List.mem_append.mp hd with hd | hd
              · exact h4 d hd
              · simp only [List.mem_singleton] at hd
                subst hd
                rw [mkDoctor_profileUrl]
                intro hinU
                exact hnotmem (h3 _ hinU)
          · rw [if_neg hvalid]
            exact ih s h1 h2 h3 h4

/-- Across the whole run the accepted URLs stay pairwise distinct, and no
accepted URL was in the URL set handed to the city. -/
theorem crawlCities_nodup (env : CityCrawl.ScrapeEnv) :
    ∀ (cities : List String) (urls : List String),
      ((CityCrawl.crawlCities env cities urls).map
          (fun d => d.profileUrl)).Nodup ∧
      (∀ d ∈ CityCrawl.crawlCities env cities urls, d.profileUrl ∉ urls) := by
  intro cities
  induction cities with
  | nil => intro urls; simp [CityCrawl.crawlCities]
  | cons city rest ih =>
    intro urls
    rw [CityCrawl.crawlCities]
    have hinv := processResults_invariant env.fetchProfile env.maxDoctorsPerCity
      urls
      (CityCrawl.collectSearchResults (env.pageFetch (trimWs city)) env.maxPages 1)
      ⟨urls, [], 0⟩ (by simp) (by simp) (fun u hu => hu) (by simp)
    set st := CityCrawl.processResults env.fetchProfile env.maxDoctorsPerCity
      (CityCrawl.collectSearchResults (env.pageFetch (trimWs city)) env.maxPages 1)
      ⟨urls, [], 0⟩ with hst
    obtain ⟨hn, hin, hgrow, hnotU⟩ := hinv
    obtain ⟨hrestn, hrestnot⟩ := ih st.scrapedUrls
    constructor
    · rw [List.map_append, List.nodup_append]
      refine ⟨hn, hrestn, ?_⟩
      intro u hu
      obtain ⟨d, hd, hdu⟩ := List.mem_map.mp hu
      intro hu2
      obtain ⟨d2, hd2, hdu2⟩ := List.mem_map.mp hu2
      exact hrestnot d2 hd2 (hdu2 ▸ hdu ▸ hin d hd)
    · intro d hd
      rcases List.mem_append.mp hd with hd | hd
      · exact hnotU d hd
      · intro hmem
        exact hrestnot d hd (hgrow _ hmem)

/-- C2: (1) over any whole run, the accepted records' canonical profile
URLs are pairwise distinct; (2) submitting two candidate listings with
identical canonical URLs to the dedup loop yields exactly the one record
of the first listing — the second is skipped via the `scrapedUrls`
set. -/
theorem C2_dedup :
    (∀ (env : CityCrawl.ScrapeEnv) (cities : List String),
      ((CityCrawl.producedDoctors env cities).map
          (fun d => d.profileUrl)).Nodup) ∧
    (∀ (fetch : DoctorSearchResult → Option CityCrawl.ProfileParts)
       (maxN : Nat) (r1 r2 : DoctorSearchResult) (p : CityCrawl.ProfileParts),
      r2.doctorUrl = r1.doctorUrl →
      fetch r1 = some p →
      CityCrawl.isValidDoctor (CityCrawl.mkDoctor r1 p) = true →
      1 ≤ maxN →
      (CityCrawl.processResults fetch maxN [r1, r2]
          ⟨[], [], 0⟩).doctors = [CityCrawl.mkDoctor r1 p]) := by
  constructor
  · intro env cities
    exact (crawlCities_nodup env cities []).1
  · intro fetch maxN r1 r2 p hurl hfetch hvalid hmax
    have h0 : ¬ (maxN ≤ (0 : Nat)) := by omega
    by_cases hm : maxN ≤ 1
    · simp [CityCrawl.processResults, h0, hfetch, hvalid, hm]
    · simp [CityCrawl.processResults, h0, hfetch, hvalid, hm, hurl]

/-- C2 witness: the duplicate-pair statement at a concrete listing. -/
theorem C2_witness :
    (CityCrawl.processResults (fun _ => some sampleParts) 45
        [sampleResult, sampleResult] ⟨[], [], 0⟩).doctors
      = [CityCrawl.mkDoctor sampleResult sampleParts] :=
  C2_dedup.2 (fun _ => some sampleParts) 45 sampleResult sampleResult sampleParts
    rfl rfl (by decide) (by norm_num)

/-! ### C3 — the only hard failure is the empty run -/

/-- C3: the pipeline root throws exactly when zero records were produced
across the whole run, and a non-empty result set is always returned
successfully.  Every per-page and per-profile failure below the root is
absorbed by the `Option`-valued oracles of `ScrapeEnv`, so the run result
is total. -/
theorem C3_fatal_iff_empty :
    ∀ (env : CityCrawl.ScrapeEnv) (cities : List String),
      (CityCrawl.scrapeDoctors env cities = Except.error "No doctors found" ↔
        CityCrawl.producedDoctors env cities = []) ∧
      (CityCrawl.producedDoctors env cities ≠ [] →
        CityCrawl.scrapeDoctors env cities =
          Except.ok (CityCrawl.producedDoctors env cities)) := by
  intro env cities
  unfold CityCrawl.scrapeDoctors
  by_cases h : CityCrawl.producedDoctors env cities = [] <;> simp [h]

/-- C3 witness: a run producing one doctor returns it with `Except.ok`. -/
theorem C3_witness :
    CityCrawl.producedDoctors envW ["Lima"] ≠ [] ∧
    CityCrawl.scrapeDoctors envW ["Lima"] =
      Except.ok (CityCrawl.producedDoctors envW ["Lima"]) :=
  ⟨by decide, (C3_fatal_iff_empty envW ["Lima"]).2 (by decide)⟩

/-! ### C8 — synthesized services -/

/-- With no matching key, both tables fall back to the single generic
entry. -/
theorem mockNames_default (table : List (String × List String))
    (specialty : String)
    (h : ∀ kv ∈ table, strContains (jsToLower specialty) kv.1 = false) :
    mockNames table specialty = ["Consulta general"] := by
  unfold mockNames
  rw [List.find?_eq_none.mpr]
  intro kv hkv
  simp [h kv hkv]

/-- Shape of one synthesized treatment under in-range draws. -/
theorem mkMockTreatment_props (name : String) (pr dr : ℚ)
    (hpr0 : 0 ≤ pr) (hpr1 : pr < 1) (hdr0 : 0 ≤ dr) (hdr1 : dr < 1) :
    (∃ p, (mkMockTreatment name pr dr).price = some p ∧ 50 ≤ p ∧ p ≤ 250) ∧
    (mkMockTreatment name pr dr).currency = some "PEN" ∧
    ((mkMockTreatment name pr dr).durationMinutes = some 30 ∨
     (mkMockTreatment name pr dr).durationMinutes = some 45 ∨
     (mkMockTreatment name pr dr).durationMinutes = some 60) := by
  refine ⟨⟨jsRound (pr * 200 + 50), rfl, ?_, ?_⟩, rfl, ?_⟩
  · rw [jsRound, Int.le_floor]
    push_cast
    nlinarith
  · rw [jsRound]
    have : ⌊pr * 200 + 50 + 1/2⌋ < 251 := by
      rw [Int.floor_lt]
      push_cast
      nlinarith
    omega
  · have h1 : (0 : ℤ) ≤ ⌊dr * 3⌋ := Int.floor_nonneg.mpr (by nlinarith)
    have h2 : ⌊dr * 3⌋ < 3 := by
      rw [Int.floor_lt]
      push_cast
      nlinarith
    simp only [mkMockTreatment, jsFloor]
    interval_cases h : ⌊dr * 3⌋ <;> decide

/-- Every element of the `names.map(...)` loop is one synthesized
treatment with consecutive draws. -/
theorem mkMockTreatments_mem (rand : ℕ → ℚ) :
    ∀ (names : List String) (k : ℕ), ∀ t ∈ mkMockTreatments rand k names,
      ∃ (name : String) (j : ℕ),
        t = mkMockTreatment name (rand j) (rand (j + 1)) := by
  intro names
  induction names with
  | nil => intro k t ht; simp [mkMockTreatments] at ht
  | cons name rest ih =>
    intro k t ht
    rw [mkMockTreatments] at ht
    rcases List.mem_cons.mp ht with h | h
    · exact ⟨name, k, h⟩
    · exact ih (k + 2) t h

/-- C8: an unmatched specialty yields exactly one generic service, and
every synthesized service of either variant has a price in `[50, 250]`,
currency `PEN`, and a duration in `{30, 45, 60}` minutes, for every draw
of the internal randomness. -/
theorem C8_mock_treatments :
    (∀ (specialty : String) (rand : ℕ → ℚ),
      (∀ kv ∈ CityCrawl.treatmentTable,
          strContains (jsToLower specialty) kv.1 = false) →
      CityCrawl.generateMockTreatments specialty rand =
        [mkMockTreatment "Consulta general" (rand 0) (rand 1)] ∧
      ∀ t ∈ CityCrawl.generateMockTreatments specialty rand,
        t.name = "Consulta general") ∧
    (∀ (specialty : String) (rand : ℕ → ℚ),
      (∀ kv ∈ SpecialtyCrawl.treatmentsBySpecialty,
          strContains (jsToLower specialty) kv.1 = false) →
      SpecialtyCrawl.generateMockTreatments specialty rand =
        [mkMockTreatment "Consulta general" (rand 0) (rand 1)] ∧
      ∀ t ∈ SpecialtyCrawl.generateMockTreatments specialty rand,
        t.name = "Consulta general") ∧
    (∀ (specialty : String) (rand : ℕ → ℚ),
      (∀ i, 0 ≤ rand i ∧ rand i < 1) →
      ∀ t ∈ CityCrawl.generateMockTreatments specialty rand,
        (∃ p, t.price = some p ∧ 50 ≤ p ∧ p ≤ 250) ∧
        t.currency = some "PEN" ∧
        (t.durationMinutes = some 30 ∨ t.durationMinutes = some 45 ∨
         t.durationMinutes = some 60)) ∧
    (∀ (specialty : String) (rand : ℕ → ℚ),
      (∀ i, 0 ≤ rand i ∧ rand i < 1) →
      ∀ t ∈ SpecialtyCrawl.generateMockTreatments specialty rand,
        (∃ p, t.price = some p ∧ 50 ≤ p ∧ p ≤ 250) ∧
        t.currency = some "PEN" ∧
        (t.durationMinutes = some 30 ∨ t.durationMinutes = some 45 ∨
         t.durationMinutes = some 60)) := by
  have hfall : ∀ (table : List (String × List String)) (specialty : String)
      (rand : ℕ → ℚ),
      (∀ kv ∈ table, strContains (jsToLower specialty) kv.1 = false) →
      mkMockTreatments rand 0 (mockNames table specialty) =
        [mkMockTreatment "Consulta general" (rand 0) (rand 1)] ∧
      ∀ t ∈ mkMockTreatments rand 0 (mockNames table specialty),
        t.name = "Consulta general" := by
    intro table specialty rand h
    rw [mockNames_default table specialty h]
    refine ⟨rfl, ?_⟩
    intro t ht
    simp only [mkMockTreatments, List.mem_singleton] at ht
    rw [ht]
    rfl
  have hprops : ∀ (names : List String) (rand : ℕ → ℚ),
      (∀ i, 0 ≤ rand i ∧ rand i < 1) →
      ∀ t ∈ mkMockTreatments rand 0 names,
        (∃ p, t.price = some p ∧ 50 ≤ p ∧ p ≤ 250) ∧
        t.currency = some "PEN" ∧
        (t.durationMinutes = some 30 ∨ t.durationMinutes = some 45 ∨
         t.durationMinutes = some 60) := by
    intro names rand hr t ht
    obtain ⟨name, j, hteq⟩ := mkMockTreatments_mem rand names 0 t ht
    rw [hteq]
    exact mkMockTreatment_props name (rand j) (rand (j + 1)) (hr j).1 (hr j).2
      (hr (j + 1)).1 (hr (j + 1)).2
  exact ⟨fun s r h => hfall CityCrawl.treatmentTable s r h,
    fun s r h => hfall SpecialtyCrawl.treatmentsBySpecialty s r h,
    fun s r h => hprops _ r h, fun s r h => hprops _ r h⟩

/-- C8 witness: the unmatched specialty `"xyz"` with all draws `1/2`
yields the single generic service priced 150 with a 45-minute
duration. -/
theorem C8_witness :
    CityCrawl.generateMockTreatments "xyz" (fun _ => 1/2) =
      [mkMockTreatment "Consulta general" (1/2) (1/2)] ∧
    (mkMockTreatment "Consulta general" (1/2 : ℚ) (1/2)).name =
      "Consulta general" ∧
    (∃ p, (mkMockTreatment "Consulta general" (1/2 : ℚ) (1/2)).price = some p ∧
      50 ≤ p ∧ p ≤ 250) :=
  ⟨(C8_mock_treatments.1 "xyz" (fun _ => 1/2) (by decide)).1,
   (C8_mock_treatments.1 "xyz" (fun _ => 1/2) (by decide)).2 _
     (by rw [(C8_mock_treatments.1 "xyz" (fun _ => 1/2) (by decide)).1]; simp),
   ((C8_mock_treatments.2.2.1 "xyz" (fun _ => 1/2) (fun _ => by norm_num)) _
     (by rw [(C8_mock_treatments.1 "xyz" (fun _ => 1/2) (by decide)).1]; simp)).1⟩

/-! ### C9 — synthesized phone numbers -/

/-- Decimal rendering of a number in `[10^7, 10^8)` has 8 characters, all
decimal digits. -/
theorem natToDecString_spec (n : ℕ) (h1 : 10 ^ 7 ≤ n) (h2 : n < 10 ^ 8) :
    (natToDecString n).length = 8 ∧
    ∀ c ∈ (natToDecString n).data, c.isDigit = true := by
  constructor
  · show ((Nat.digits 10 n).reverse.map (fun d => Char.ofNat (48 + d))).length = 8
    rw [List.length_map, List.length_reverse,
      Nat.digits_len 10 n (by norm_num) (by omega),
      Nat.log_eq_of_pow_le_of_lt_pow h1 h2]
  · intro c hc
    obtain ⟨d, hd, hdc⟩ := List.mem_map.mp hc
    have hdlt : d < 10 :=
      Nat.digits_lt_base (by norm_num) (List.mem_reverse.mp hd)
    rw [← hdc]
    interval_cases d <;> decide

/-- C9: for every draw in `[0,1)`, the synthesized phone number is a
string of exactly 9 decimal digits beginning with the fixed digit `9`;
the specialty-variant `generatePhoneNumber` is the same function. -/
theorem C9_phone_shape :
    ∀ r : ℚ, 0 ≤ r → r < 1 →
      (CityCrawl.generatePhone r).length = 9 ∧
      (CityCrawl.generatePhone r).data.head? = some '9' ∧
      (∀ c ∈ (CityCrawl.generatePhone r).data, c.isDigit = true) ∧
      SpecialtyCrawl.generatePhoneNumber r = CityCrawl.generatePhone r := by
  intro r h0 h1
  have hf0 : (10000000 : ℤ) ≤ ⌊r * 90000000 + 10000000⌋ := by
    rw [Int.le_floor]
    push_cast
    nlinarith
  have hf1 : ⌊r * 90000000 + 10000000⌋ < 100000000 := by
    rw [Int.floor_lt]
    push_cast
    nlinarith
  have hm1 : 10 ^ 7 ≤ (jsFloor (r * 90000000 + 10000000)).toNat := by
    rw [jsFloor]
    omega
  have hm2 : (jsFloor (r * 90000000 + 10000000)).toNat < 10 ^ 8 := by
    rw [jsFloor]
    omega
  obtain ⟨hlen, hdigits⟩ := natToDecString_spec _ hm1 hm2
  have hdata : (CityCrawl.generatePhone r).data =
      '9' :: (natToDecString (jsFloor (r * 90000000 + 10000000)).toNat).data := rfl
  refine ⟨?_, ?_, ?_, rfl⟩
  · show (CityCrawl.generatePhone r).data.length = 9
    rw [hdata, List.length_cons]
    have : (natToDecString (jsFloor (r * 90000000 + 10000000)).toNat).data.length = 8 :=
      hlen
    omega
  · rw [hdata]
    rfl
  · intro c hc
    rw [hdata] at hc
    rcases List.mem_cons.mp hc with h | h
    · rw [h]
      decide
    · exact hdigits c h

/-- C9 witness: the draw `0` yields the nine-digit string `910000000`. -/
theorem C9_witness :
    (CityCrawl.generatePhone 0).length = 9 ∧
    (CityCrawl.generatePhone 0).data.head? = some '9' ∧
    (∀ c ∈ (CityCrawl.generatePhone 0).data, c.isDigit = true) ∧
    SpecialtyCrawl.generatePhoneNumber 0 = CityCrawl.generatePhone 0 :=
  C9_phone_shape 0 (le_refl 0) (by norm_num)

/-! ### C10 — appointments lie inside their availability block -/

/-- Arithmetic core of the appointment guards: a non-negative slot index
and the explicit end-of-block check confine the 30-minute interval to the
block. -/
theorem slot_bounds (s e rs dur : ℤ) (hrs : 0 ≤ rs) (hdur : 0 < dur)
    (hend : ¬ (e < s + rs * dur + dur)) :
    s ≤ s + rs * dur ∧ s + rs * dur + dur ≤ e := by
  have hnn : 0 ≤ rs * dur := mul_nonneg hrs (le_of_lt hdur)
  omega

/-- Every appointment produced by one `generateAppointment` call is a
30-minute interval inside the drawn availability block. -/
theorem generateAppointment_inside (doctor : AppointmentGen.GenDoctor)
    (patients : List ℤ) (d : AppointmentGen.DrawPack)
    (app : AppointmentGen.AppointmentData)
    (hs : 0 ≤ d.slotRand)
    (happ : AppointmentGen.generateAppointment doctor patients d = some app) :
    ∃ b ∈ doctor.availability,
      app.endAt = app.startAt + AppointmentGen.slotDuration ∧
      b.start_at ≤ app.startAt ∧ app.endAt ≤ b.end_at := by
  unfold AppointmentGen.generateAppointment at happ
  split at happ
  case _ block treatment patient heqa heqt heqp =>
    refine ⟨block, List.get?_mem heqa, ?_⟩
    dsimp only at happ
    split at happ
    · cases happ
    case _ hpos =>
      split at happ
      · cases happ
      case _ hend =>
        cases happ
        have hmaxpos : (0 : ℤ) <
            jsFloor ((((block.end_at - block.start_at) : ℤ) : ℚ) /
              ((AppointmentGen.slotDuration : ℤ) : ℚ)) := by omega
        have hslot : (0 : ℤ) ≤ jsFloor (d.slotRand *
            ((jsFloor ((((block.end_at - block.start_at) : ℤ) : ℚ) /
              ((AppointmentGen.slotDuration : ℤ) : ℚ)) : ℤ) : ℚ)) := by
          rw [jsFloor]
          refine Int.floor_nonneg.mpr (mul_nonneg hs ?_)
          exact_mod_cast hmaxpos.le
        have hdur : (0 : ℤ) < AppointmentGen.slotDuration := by
          rw [AppointmentGen.slotDuration]
          norm_num
        have hb := slot_bounds block.start_at block.end_at
          (jsFloor (d.slotRand *
            ((jsFloor ((((block.end_at - block.start_at) : ℤ) : ℚ) /
              ((AppointmentGen.slotDuration : ℤ) : ℚ)) : ℤ) : ℚ)))
          AppointmentGen.slotDuration hslot hdur hend
        exact ⟨rfl, hb.1, hb.2⟩
  case _ =>
    cases happ

/-- Membership in the generator's output comes from a single call on one
of the input doctors. -/
theorem generateLoop_mem (patients : List ℤ) (numPer : ℕ)
    (draws : ℕ → AppointmentGen.DrawPack) :
    ∀ (doctors : List AppointmentGen.GenDoctor) (k : ℕ)
      (app : AppointmentGen.AppointmentData),
      app ∈ AppointmentGen.generateLoop patients numPer draws doctors k →
      ∃ doctor ∈ doctors, ∃ j,
        AppointmentGen.generateAppointment doctor patients (draws j) = some app := by
  intro doctors
  induction doctors with
  | nil => intro k app happ; simp [AppointmentGen.generateLoop] at happ
  | cons doctor rest ih =>
    intro k app happ
    rw [AppointmentGen.generateLoop] at happ
    split at happ
    · obtain ⟨d2, hd2, j, hj⟩ := ih _ app happ
      exact ⟨d2, List.mem_cons_of_mem _ hd2, j, hj⟩
    · split at happ
      · obtain ⟨d2, hd2, j, hj⟩ := ih _ app happ
        exact ⟨d2, List.mem_cons_of_mem _ hd2, j, hj⟩
      · rcases List.mem_append.mp happ with h | h
        · obtain ⟨i, _, hgen⟩ := List.mem_filterMap.mp h
          exact ⟨doctor, List.mem_cons_self _ _, k + i, hgen⟩
        · obtain ⟨d2, hd2, j, hj⟩ := ih _ app h
          exact ⟨d2, List.mem_cons_of_mem _ hd2, j, hj⟩

/-- C10: every appointment returned by `AppointmentGenerator.generate`
has `endAt = startAt + 30` minutes and lies entirely inside the
availability block it was drawn from, for every doctor list, patient
list and random draw. -/
theorem C10_appointments_inside :
    ∀ (doctors : List AppointmentGen.GenDoctor) (patients : List ℤ)
      (numPer : ℕ) (draws : ℕ → AppointmentGen.DrawPack),
      (∀ n, (draws n).inRange) →
      ∀ app ∈ AppointmentGen.generate doctors patients numPer draws,
        ∃ doctor ∈ doctors, ∃ b ∈ doctor.availability,
          app.endAt = app.startAt + 30 * 60 * 1000 ∧
          b.start_at ≤ app.startAt ∧ app.endAt ≤ b.end_at := by
  intro doctors patients numPer draws hdraws app happ
  obtain ⟨doctor, hdoc, j, hgen⟩ :=
    generateLoop_mem patients numPer draws doctors 0 app happ
  obtain ⟨b, hb, h1, h2, h3⟩ :=
    generateAppointment_inside doctor patients (draws j) app
      (hdraws j).2.2.2.1.1 hgen
  exact ⟨doctor, hdoc, b, hb, h1, h2, h3⟩

/-- C10 witness: a two-hour block starting at instant 0 with all draws
`0` yields the appointment over the block's first half hour. -/
theorem C10_witness :
    ∃ doctor ∈ [sampleGenDoctor], ∃ b ∈ doctor.availability,
      (⟨1, 9, 3, 0, 1800000, "scheduled"⟩ :
          AppointmentGen.AppointmentData).endAt =
        (⟨1, 9, 3, 0, 1800000, "scheduled"⟩ :
          AppointmentGen.AppointmentData).startAt + 30 * 60 * 1000 ∧
      b.start_at ≤ (⟨1, 9, 3, 0, 1800000, "scheduled"⟩ :
          AppointmentGen.AppointmentData).startAt ∧
      (⟨1, 9, 3, 0, 1800000, "scheduled"⟩ :
          AppointmentGen.AppointmentData).endAt ≤ b.end_at :=
  C10_appointments_inside [sampleGenDoctor] [9] 1 (fun _ => zeroPack)
    (fun _ => by norm_num [AppointmentGen.DrawPack.inRange, zeroPack])
    ⟨1, 9, 3, 0, 1800000, "scheduled"⟩ (by
      have hgen : AppointmentGen.generate [sampleGenDoctor] [9] 1
          (fun _ => zeroPack) =
          [⟨1, 9, 3, 0, 1800000, "scheduled"⟩] := by
        norm_num [AppointmentGen.generate, AppointmentGen.generateLoop,
          AppointmentGen.generateAppointment, AppointmentGen.statusOf,
          AppointmentGen.slotDuration, sampleGenDoctor, zeroPack, jsFloor,
          List.range_succ, List.filterMap_cons, List.filterMap_nil]
      rw [hgen]
      simp)

/-! ### C4 — the address normalizer

Whitespace sanitation is proved invariant by invariant through the
replacement chain: `collapseWs` establishes `WsIsSpace` and `NoWsPair`,
and each later pass preserves them; the final `trim` adds the boundary
conditions. -/

theorem wsIsSpace_nil : WsIsSpace [] := by
  intro c hc
  cases hc

theorem wsIsSpace_cons {c : Char} {l : List Char} :
    WsIsSpace (c :: l) ↔ (isWsChar c = true → c = ' ') ∧ WsIsSpace l := by
  unfold WsIsSpace
  simp

theorem noWsPair_nil : NoWsPair [] := List.chain'_nil

theorem noWsPair_cons {c : Char} {l : List Char} :
    NoWsPair (c :: l) ↔
      (∀ b ∈ l.head?, ¬(isWsChar c = true ∧ isWsChar b = true)) ∧
      NoWsPair l :=
  List.chain'_cons'

theorem noWsPair_cons_of_not_ws {c : Char} {l : List Char}
    (hc : isWsChar c = false) (hl : NoWsPair l) : NoWsPair (c :: l) :=
  noWsPair_cons.mpr ⟨fun _ _ h => by simp [hc] at h, hl⟩

theorem wsIsSpace_of_subset {l₁ l₂ : List Char} (hsub : ∀ c ∈ l₁, c ∈ l₂)
    (h : WsIsSpace l₂) : WsIsSpace l₁ :=
  fun c hc => h c (hsub c hc)

theorem noWsPair_suffix {l₁ l : List Char} (hs : l₁ <:+ l) (h : NoWsPair l) :
    NoWsPair l₁ :=
  h.suffix hs

theorem noWsPair_reverse {l : List Char} : NoWsPair l.reverse ↔ NoWsPair l := by
  unfold NoWsPair
  rw [List.chain'_reverse]
  constructor
  · exact fun h => h.imp fun a b hab hc => hab ⟨hc.2, hc.1⟩
  · exact fun h => h.imp fun a b hab hc => hab ⟨hc.2, hc.1⟩

theorem collapseWsAux_wsSp : ∀ (l : List Char) (st : Bool),
    WsIsSpace (collapseWsAux st l) := by
  intro l
  induction l with
  | nil => intro st; cases st <;> exact wsIsSpace_nil
  | cons c rest ih =>
    intro st
    cases st <;> rw [collapseWsAux] <;> by_cases hws : isWsChar c = true
    · rw [if_pos hws]
      exact wsIsSpace_cons.mpr ⟨fun _ => rfl, ih true⟩
    · rw [if_neg hws]
      exact wsIsSpace_cons.mpr ⟨fun h => absurd h hws, ih false⟩
    · rw [if_pos hws]
      exact ih true
    · rw [if_neg hws]
      exact wsIsSpace_cons.mpr ⟨fun h => absurd h hws, ih false⟩

theorem collapseWsAux_true_head : ∀ l : List Char,
    ∀ b ∈ (collapseWsAux true l).head?, isWsChar b = false := by
  intro l
  induction l with
  | nil => intro b hb; simp [collapseWsAux] at hb
  | cons c rest ih =>
    rw [collapseWsAux]
    by_cases hws : isWsChar c = true
    · rw [if_pos hws]
      exact ih
    · rw [if_neg hws]
      intro b hb
      have hcb : c = b := by simpa using hb
      rw [← hcb]
      simpa using hws

theorem collapseWsAux_noPair : ∀ (l : List Char) (st : Bool),
    NoWsPair (collapseWsAux st l) := by
  intro l
  induction l with
  | nil => intro st; cases st <;> exact noWsPair_nil
  | cons c rest ih =>
    intro st
    cases st <;> rw [collapseWsAux] <;> by_cases hws : isWsChar c = true
    · rw [if_pos hws]
      refine noWsPair_cons.mpr ⟨?_, ih true⟩
      intro b hb hcon
      have := collapseWsAux_true_head rest b hb
      rw [this] at hcon
      exact absurd hcon.2 (by simp)
    · rw [if_neg hws]
      exact noWsPair_cons_of_not_ws (by simpa using hws) (ih false)
    · rw [if_pos hws]
      exact ih true
    · rw [if_neg hws]
      exact noWsPair_cons_of_not_ws (by simpa using hws) (ih false)

theorem removeNl_id {l : List Char} (h : WsIsSpace l) : removeNl l = l := by
  unfold removeNl
  rw [List.filter_eq_self]
  intro c hc
  simp only [ne_eq, decide_eq_true_eq]
  intro heq
  subst heq
  exact absurd (h '\n' hc (by decide)) (by decide)

theorem removeTab_id {l : List Char} (h : WsIsSpace l) : removeTab l = l := by
  unfold removeTab
  rw [List.filter_eq_self]
  intro c hc
  simp only [ne_eq, decide_eq_true_eq]
  intro heq
  subst heq
  exact absurd (h '\t' hc (by decide)) (by decide)

theorem collapseCommasAux_some_head : ∀ (l buf : List Char),
    (collapseCommasAux (some buf) l).head? = some ',' := by
  intro l
  induction l with
  | nil => intro buf; rfl
  | cons c rest ih =>
    intro buf
    rw [collapseCommasAux]
    by_cases hc : c = ','
    · rw [if_pos hc]
      rfl
    · rw [if_neg hc]
      by_cases hws : isWsChar c = true
      · rw [if_pos hws]
        exact ih (c :: buf)
      · rw [if_neg hws]
        rfl

theorem collapseCommasAux_none_head :
    ∀ l : List Char, (∀ b ∈ l.head?, isWsChar b = false) →
      ∀ b ∈ (collapseCommasAux none l).head?, isWsChar b = false := by
  intro l h
  cases l with
  | nil => intro b hb; simp [collapseCommasAux] at hb
  | cons c rest =>
    rw [collapseCommasAux]
    by_cases hc : c = ','
    · rw [if_pos hc]
      intro b hb
      rw [collapseCommasAux_some_head] at hb
      have hcb : (',') = b := by simpa using hb
      rw [← hcb]
      decide
    · rw [if_neg hc]
      intro b hb
      have hcb : c = b := by simpa using hb
      rw [← hcb]
      exact h c (by simp)

theorem collapseCommasAux_spec :
    ∀ l : List Char, WsIsSpace l → NoWsPair l →
      (∀ buf : List Char, WsIsSpace buf → buf.length ≤ 1 →
        (buf = [] ∨ ∀ b ∈ l.head?, isWsChar b = false) →
        WsIsSpace (collapseCommasAux (some buf) l) ∧
        NoWsPair (collapseCommasAux (some buf) l)) ∧
      (WsIsSpace (collapseCommasAux none l) ∧
       NoWsPair (collapseCommasAux none l)) := by
  intro l
  induction l with
  | nil =>
    intro _ _
    constructor
    · intro buf hwb hlen _
      constructor
      · exact wsIsSpace_cons.mpr ⟨fun h => absurd h (by decide),
          wsIsSpace_of_subset (fun c hc => List.mem_reverse.mp hc) hwb⟩
      · cases buf with
        | nil => exact List.chain'_singleton _
        | cons x t =>
          have ht : t = [] := by
            simp only [List.length_cons] at hlen
            exact List.eq_nil_of_length_eq_zero (by omega)
          subst ht
          refine noWsPair_cons.mpr ⟨?_, List.chain'_singleton _⟩
          intro b _ hcon
          exact absurd hcon.1 (by decide)
    · exact ⟨wsIsSpace_nil, noWsPair_nil⟩
  | cons c rest ih =>
    intro hw hn
    have hwr : WsIsSpace rest := fun d hd => hw d (List.mem_cons_of_mem _ hd)
    have hnr : NoWsPair rest := (noWsPair_cons.mp hn).2
    have hhead : ∀ b ∈ rest.head?,
        ¬(isWsChar c = true ∧ isWsChar b = true) := (noWsPair_cons.mp hn).1
    obtain ⟨ihsome, ihnone⟩ := ih hwr hnr
    have hresthead : isWsChar c = true → ∀ b ∈ rest.head?, isWsChar b = false := by
      intro hws b hb
      rcases Bool.eq_false_or_eq_true (isWsChar b) with h | h
      · exact absurd ⟨hws, h⟩ (hhead b hb)
      · exact h
    constructor
    · intro buf hwb hlen hdisj
      rw [collapseCommasAux]
      by_cases hc : c = ','
      · rw [if_pos hc]
        exact ⟨wsIsSpace_cons.mpr ⟨fun h => absurd h (by decide), ihnone.1⟩,
          noWsPair_cons_of_not_ws (by decide) ihnone.2⟩
      · rw [if_neg hc]
        by_cases hws : isWsChar c = true
        · rw [if_pos hws]
          have hbuf : buf = [] := by
            rcases hdisj with h | h
            · exact h
            · exact absurd hws (by simp [h c (by simp)])
          subst hbuf
          refine ihsome [c] ?_ (by simp) (Or.inr (hresthead hws))
          intro d hd
          have : d = c := by simpa using hd
          subst this
          intro _
          exact hw d (by simp) hws
        · rw [if_neg hws]
          have hcfalse : isWsChar c = false := by simpa using hws
          constructor
          · refine wsIsSpace_cons.mpr ⟨fun h => absurd h (by decide), ?_⟩
            intro d hd
            rcases List.mem_append.mp hd with hd | hd
            · exact hwb d (List.mem_reverse.mp hd)
            · rcases List.mem_cons.mp hd with hd | hd
              · subst hd
                intro h
                exact absurd h hws
              · exact ihnone.1 d hd
          · cases buf with
            | nil =>
              simp only [List.reverse_nil, List.nil_append]
              exact noWsPair_cons_of_not_ws (by decide)
                (noWsPair_cons_of_not_ws hcfalse ihnone.2)
            | cons x t =>
              have ht : t = [] := by
                simp only [List.length_cons] at hlen
                exact List.eq_nil_of_length_eq_zero (by omega)
              subst ht
              simp only [List.reverse_cons, List.reverse_nil, List.nil_append,
                List.cons_append, List.nil_append]
              refine noWsPair_cons_of_not_ws (by decide) ?_
              refine noWsPair_cons.mpr ⟨?_, noWsPair_cons_of_not_ws hcfalse ihnone.2⟩
              intro b hb hcon
              have : c = b := by simpa using hb
              rw [← this] at hcon
              rw [hcfalse] at hcon
              exact absurd hcon.2 (by simp)
    · rw [collapseCommasAux]
      by_cases hc : c = ','
      · rw [if_pos hc]
        exact ihsome [] wsIsSpace_nil (by simp) (Or.inl rfl)
      · rw [if_neg hc]
        constructor
        · exact wsIsSpace_cons.mpr ⟨fun h => hw c (by simp) h, ihnone.1⟩
        · by_cases hws : isWsChar c = true
          · refine noWsPair_cons.mpr ⟨?_, ihnone.2⟩
            intro b hb hcon
            have hb' := collapseCommasAux_none_head rest (hresthead hws) b hb
            rw [hb'] at hcon
            exact absurd hcon.2 (by simp)
          · exact noWsPair_cons_of_not_ws (by simpa using hws) ihnone.2

theorem collapseCommas_spec {l : List Char} (hw : WsIsSpace l)
    (hn : NoWsPair l) :
    WsIsSpace (collapseCommas l) ∧ NoWsPair (collapseCommas l) :=
  (collapseCommasAux_spec l hw hn).2

theorem dropLeadingComma_spec {l : List Char} (hw : WsIsSpace l)
    (hn : NoWsPair l) :
    WsIsSpace (dropLeadingComma l) ∧ NoWsPair (dropLeadingComma l) := by
  unfold dropLeadingComma
  split
  · rename_i r heq
    have h1 : List.dropWhile isWsChar r <:+ r := List.dropWhile_suffix _
    have h2 : r <:+ l.dropWhile isWsChar := by
      rw [heq]
      exact List.suffix_cons ',' r
    have h3 : List.dropWhile isWsChar r <:+ l :=
      (h1.trans h2).trans (List.dropWhile_suffix isWsChar)
    exact ⟨wsIsSpace_of_subset (fun c hc => h3.subset hc) hw,
      noWsPair_suffix h3 hn⟩
  · exact ⟨hw, hn⟩

theorem dropTrailingComma_spec {l : List Char} (hw : WsIsSpace l)
    (hn : NoWsPair l) :
    WsIsSpace (dropTrailingComma l) ∧ NoWsPair (dropTrailingComma l) := by
  unfold dropTrailingComma
  have hrev : WsIsSpace l.reverse :=
    wsIsSpace_of_subset (fun c hc => List.mem_reverse.mp hc) hw
  have hnrev : NoWsPair l.reverse := noWsPair_reverse.mpr hn
  obtain ⟨h1, h2⟩ := dropLeadingComma_spec hrev hnrev
  exact ⟨wsIsSpace_of_subset (fun c hc => List.mem_reverse.mp hc) h1,
    noWsPair_reverse.mpr h2⟩

theorem stripWsBeforeCommaAux_spec :
    ∀ l : List Char, WsIsSpace l → NoWsPair l →
      ∀ buf : List Char, WsIsSpace buf → buf.length ≤ 1 →
        (buf = [] ∨ ∀ b ∈ l.head?, isWsChar b = false) →
        WsIsSpace (stripWsBeforeCommaAux buf l) ∧
        NoWsPair (stripWsBeforeCommaAux buf l) := by
  intro l
  induction l with
  | nil =>
    intro _ _ buf hwb hlen _
    rw [stripWsBeforeCommaAux]
    refine ⟨wsIsSpace_of_subset (fun c hc => List.mem_reverse.mp hc) hwb, ?_⟩
    cases buf with
    | nil => exact noWsPair_nil
    | cons x t =>
      have ht : t = [] := by
        simp only [List.length_cons] at hlen
        exact List.eq_nil_of_length_eq_zero (by omega)
      subst ht
      exact List.chain'_singleton _
  | cons c rest ih =>
    intro hw hn buf hwb hlen hdisj
    have hwr : WsIsSpace rest := fun d hd => hw d (List.mem_cons_of_mem _ hd)
    have hnr : NoWsPair rest := (noWsPair_cons.mp hn).2
    have hhead : ∀ b ∈ rest.head?,
        ¬(isWsChar c = true ∧ isWsChar b = true) := (noWsPair_cons.mp hn).1
    have hresthead : isWsChar c = true →
        ∀ b ∈ rest.head?, isWsChar b = false := by
      intro hws b hb
      rcases Bool.eq_false_or_eq_true (isWsChar b) with h | h
      · exact absurd ⟨hws, h⟩ (hhead b hb)
      · exact h
    rw [stripWsBeforeCommaAux]
    by_cases hws : isWsChar c = true
    · rw [if_pos hws]
      have hbuf : buf = [] := by
        rcases hdisj with h | h
        · exact h
        · exact absurd hws (by simp [h c (by simp)])
      subst hbuf
      refine ih hwr hnr [c] ?_ (by simp) (Or.inr (hresthead hws))
      intro d hd
      have : d = c := by simpa using hd
      subst this
      intro _
      exact hw d (by simp) hws
    · rw [if_neg hws]
      have hcfalse : isWsChar c = false := by simpa using hws
      have hihnil := ih hwr hnr [] wsIsSpace_nil (by simp) (Or.inl rfl)
      by_cases hc : c = ','
      · rw [if_pos hc]
        exact ⟨wsIsSpace_cons.mpr ⟨fun h => absurd h (by decide), hihnil.1⟩,
          noWsPair_cons_of_not_ws (by decide) hihnil.2⟩
      · rw [if_neg hc]
        constructor
        · intro d hd
          rcases List.mem_append.mp hd with hd | hd
          · exact hwb d (List.mem_reverse.mp hd)
          · rcases List.mem_cons.mp hd with hd | hd
            · subst hd
              intro h
              exact absurd h hws
            · exact hihnil.1 d hd
        · cases buf with
          | nil =>
            simp only [List.reverse_nil, List.nil_append]
            exact noWsPair_cons_of_not_ws hcfalse hihnil.2
          | cons x t =>
            have ht : t = [] := by
              simp only [List.length_cons] at hlen
              exact List.eq_nil_of_length_eq_zero (by omega)
            subst ht
            simp only [List.reverse_cons, List.reverse_nil, List.nil_append,
              List.cons_append]
            refine noWsPair_cons.mpr ⟨?_, noWsPair_cons_of_not_ws hcfalse hihnil.2⟩
            intro b hb hcon
            have : c = b := by simpa using hb
            rw [← this, hcfalse] at hcon
            exact absurd hcon.2 (by simp)

theorem stripWsBeforeComma_spec {l : List Char} (hw : WsIsSpace l)
    (hn : NoWsPair l) :
    WsIsSpace (stripWsBeforeComma l) ∧ NoWsPair (stripWsBeforeComma l) :=
  stripWsBeforeCommaAux_spec l hw hn [] wsIsSpace_nil (by simp) (Or.inl rfl)

theorem spaceAfterCommaAux_state2_head : ∀ l : List Char,
    ∀ b ∈ (spaceAfterCommaAux 2 l).head?, isWsChar b = false := by
  intro l
  induction l with
  | nil => intro b hb; simp [spaceAfterCommaAux] at hb
  | cons c rest ih =>
    show ∀ b ∈ (spaceAfterCommaAux (0 + 2) (c :: rest)).head?, isWsChar b = false
    rw [spaceAfterCommaAux]
    by_cases hws : isWsChar c = true
    · rw [if_pos hws]
      exact ih
    · rw [if_neg hws]
      by_cases hc : c = ','
      · rw [if_pos hc]
        intro b hb
        have : (',') = b := by simpa using hb
        rw [← this]
        decide
      · rw [if_neg hc]
        intro b hb
        have : c = b := by simpa using hb
        rw [← this]
        simpa using hws

theorem spaceAfterCommaAux_state0_head :
    ∀ l : List Char, (∀ b ∈ l.head?, isWsChar b = false) →
      ∀ b ∈ (spaceAfterCommaAux 0 l).head?, isWsChar b = false := by
  intro l h
  cases l with
  | nil => intro b hb; simp [spaceAfterCommaAux] at hb
  | cons c rest =>
    rw [spaceAfterCommaAux]
    by_cases hc : c = ','
    · rw [if_pos hc]
      intro b hb
      have : (',') = b := by simpa using hb
      rw [← this]
      decide
    · rw [if_neg hc]
      intro b hb
      have : c = b := by simpa using hb
      rw [← this]
      exact h c (by simp)

theorem spaceAfterCommaAux_spec :
    ∀ l : List Char, WsIsSpace l → NoWsPair l →
      (WsIsSpace (spaceAfterCommaAux 0 l) ∧ NoWsPair (spaceAfterCommaAux 0 l)) ∧
      (WsIsSpace (spaceAfterCommaAux 1 l) ∧ NoWsPair (spaceAfterCommaAux 1 l)) ∧
      (WsIsSpace (spaceAfterCommaAux 2 l) ∧ NoWsPair (spaceAfterCommaAux 2 l)) := by
  intro l
  induction l with
  | nil =>
    intro _ _
    refine ⟨⟨wsIsSpace_nil, noWsPair_nil⟩, ⟨wsIsSpace_nil, noWsPair_nil⟩,
      ⟨?_, ?_⟩⟩
    · show WsIsSpace (spaceAfterCommaAux (0 + 2) [])
      rw [spaceAfterCommaAux]
      exact wsIsSpace_nil
    · show NoWsPair (spaceAfterCommaAux (0 + 2) [])
      rw [spaceAfterCommaAux]
      exact noWsPair_nil
  | cons c rest ih =>
    intro hw hn
    have hwr : WsIsSpace rest := fun d hd => hw d (List.mem_cons_of_mem _ hd)
    have hnr : NoWsPair rest := (noWsPair_cons.mp hn).2
    have hhead : ∀ b ∈ rest.head?,
        ¬(isWsChar c = true ∧ isWsChar b = true) := (noWsPair_cons.mp hn).1
    have hresthead : isWsChar c = true →
        ∀ b ∈ rest.head?, isWsChar b = false := by
      intro hws b hb
      rcases Bool.eq_false_or_eq_true (isWsChar b) with h | h
      · exact absurd ⟨hws, h⟩ (hhead b hb)
      · exact h
    obtain ⟨ih0, ih1, ih2⟩ := ih hwr hnr
    have hgen0 : WsIsSpace (c :: spaceAfterCommaAux 0 rest) ∧
        NoWsPair (c :: spaceAfterCommaAux 0 rest) := by
      constructor
      · exact wsIsSpace_cons.mpr ⟨fun h => hw c (by simp) h, ih0.1⟩
      · by_cases hws : isWsChar c = true
        · refine noWsPair_cons.mpr ⟨?_, ih0.2⟩
          intro b hb hcon
          have hb' := spaceAfterCommaAux_state0_head rest (hresthead hws) b hb
          rw [hb'] at hcon
          exact absurd hcon.2 (by simp)
        · exact noWsPair_cons_of_not_ws (by simpa using hws) ih0.2
    refine ⟨?_, ?_, ?_⟩
    · rw [spaceAfterCommaAux]
      by_cases hc : c = ','
      · rw [if_pos hc]
        exact ⟨wsIsSpace_cons.mpr ⟨fun h => absurd h (by decide), ih1.1⟩,
          noWsPair_cons_of_not_ws (by decide) ih1.2⟩
      · rw [if_neg hc]
        exact hgen0
    · rw [spaceAfterCommaAux]
      by_cases hws : isWsChar c = true
      · rw [if_pos hws]
        constructor
        · exact wsIsSpace_cons.mpr ⟨fun _ => rfl, ih2.1⟩
        · refine noWsPair_cons.mpr ⟨?_, ih2.2⟩
          intro b hb hcon
          have hb' := spaceAfterCommaAux_state2_head rest b hb
          rw [hb'] at hcon
          exact absurd hcon.2 (by simp)
      · rw [if_neg hws]
        by_cases hc : c = ','
        · rw [if_pos hc]
          exact ⟨wsIsSpace_cons.mpr ⟨fun h => absurd h (by decide), ih1.1⟩,
            noWsPair_cons_of_not_ws (by decide) ih1.2⟩
        · rw [if_neg hc]
          exact hgen0
    · show WsIsSpace (spaceAfterCommaAux (0 + 2) (c :: rest)) ∧
        NoWsPair (spaceAfterCommaAux (0 + 2) (c :: rest))
      rw [spaceAfterCommaAux]
      by_cases hws : isWsChar c = true
      · rw [if_pos hws]
        exact ih2
      · rw [if_neg hws]
        by_cases hc : c = ','
        · rw [if_pos hc]
          exact ⟨wsIsSpace_cons.mpr ⟨fun h => absurd h (by decide), ih1.1⟩,
            noWsPair_cons_of_not_ws (by decide) ih1.2⟩
        · rw [if_neg hc]
          exact hgen0

theorem spaceAfterComma_spec {l : List Char} (hw : WsIsSpace l)
    (hn : NoWsPair l) :
    WsIsSpace (spaceAfterComma l) ∧ NoWsPair (spaceAfterComma l) :=
  (spaceAfterCommaAux_spec l hw hn).1

theorem head?_dropWhile_not (p : Char → Bool) :
    ∀ l : List Char, ∀ b ∈ (l.dropWhile p).head?, p b = false := by
  intro l
  induction l with
  | nil => intro b hb; simp at hb
  | cons c rest ih =>
    rw [List.dropWhile_cons]
    by_cases hc : p c = true
    · rw [if_pos hc]
      exact ih
    · rw [if_neg hc]
      intro b hb
      have : c = b := by simpa using hb
      rw [← this]
      simpa using hc

theorem getLast?_dropWhile (p : Char → Bool) (l : List Char)
    (hne : l.dropWhile p ≠ []) :
    (l.dropWhile p).getLast? = l.getLast? := by
  obtain ⟨t, ht⟩ := List.dropWhile_suffix p (l := l)
  conv_rhs => rw [← ht]
  exact (List.getLast?_append_of_ne_nil t hne).symm

theorem trimWsL_spec {l : List Char} (hw : WsIsSpace l) (hn : NoWsPair l) :
    WsIsSpace (trimWsL l) ∧ NoWsPair (trimWsL l) ∧
    (∀ b ∈ (trimWsL l).head?, isWsChar b = false) ∧
    (∀ b ∈ (trimWsL l).getLast?, isWsChar b = false) := by
  unfold trimWsL
  have hXw : WsIsSpace (l.dropWhile isWsChar) :=
    wsIsSpace_of_subset (fun c hc => (List.dropWhile_suffix isWsChar).subset hc) hw
  have hXn : NoWsPair (l.dropWhile isWsChar) :=
    noWsPair_suffix (List.dropWhile_suffix _) hn
  refine ⟨?_, ?_, ?_, ?_⟩
  · intro c hc
    apply hXw c
    exact List.mem_reverse.mp
      ((List.dropWhile_suffix isWsChar).subset (List.mem_reverse.mp hc))
  · exact noWsPair_reverse.mpr
      (noWsPair_suffix (List.dropWhile_suffix _) (noWsPair_reverse.mpr hXn))
  · intro b hb
    rw [List.head?_reverse] at hb
    by_cases hY : (l.dropWhile isWsChar).reverse.dropWhile isWsChar = []
    · rw [hY] at hb
      simp at hb
    · rw [getLast?_dropWhile isWsChar _ hY, List.getLast?_reverse] at hb
      exact head?_dropWhile_not isWsChar l b hb
  · intro b hb
    rw [List.getLast?_reverse] at hb
    exact head?_dropWhile_not isWsChar _ b hb

/-- The whole chain: the normalized address has only plain spaces as
whitespace, never two adjacent, and none at either end. -/
theorem cleanAddressL_spec (l : List Char) :
    WsIsSpace (cleanAddressL l) ∧ NoWsPair (cleanAddressL l) ∧
    (∀ b ∈ (cleanAddressL l).head?, isWsChar b = false) ∧
    (∀ b ∈ (cleanAddressL l).getLast?, isWsChar b = false) := by
  unfold cleanAddressL
  have h1w : WsIsSpace (collapseWs l) := collapseWsAux_wsSp l false
  have h1n : NoWsPair (collapseWs l) := collapseWsAux_noPair l false
  rw [removeNl_id h1w, removeTab_id h1w]
  obtain ⟨h2w, h2n⟩ := collapseCommas_spec h1w h1n
  obtain ⟨h3w, h3n⟩ := dropLeadingComma_spec h2w h2n
  obtain ⟨h4w, h4n⟩ := dropTrailingComma_spec h3w h3n
  obtain ⟨h5w, h5n⟩ := stripWsBeforeComma_spec h4w h4n
  obtain ⟨h6w, h6n⟩ := spaceAfterComma_spec h5w h5n
  exact trimWsL_spec h6w h6n

/-- C4 counterexample: the claim's comma guarantees fail — a run of seven
commas cleans to `",,"` (a doubled comma that both leads and trails), and
a comma directly followed by text gets no space after it. -/
theorem C4_counterexample :
    cleanAddress ",,,,,,," = ",," ∧
    cleanAddress "Calle 123,Lima" = "Calle 123,Lima" := by
  exact ⟨by decide, by decide⟩

/-- C4 (amended): for every raw address string, `cleanAddress` returns a
string in which every whitespace character is a plain space (so no
newlines or tabs), no two whitespace characters are adjacent (whitespace
runs are collapsed to single spaces), and no whitespace leads or trails;
the claimed comma normalizations hold only one level deep — the two
quoted examples do hold (`"Calle   el   Palmar   181"` ↦
`"Calle el Palmar 181"`, `", Calle 123 ,"` ↦ `"Calle 123"`), but longer
comma runs can leave doubled, leading or trailing commas, and a comma
directly followed by text keeps no space after it. -/
theorem C4_whitespace_normal :
    (∀ s : String,
      '\n' ∉ (cleanAddress s).data ∧
      '\t' ∉ (cleanAddress s).data ∧
      WsIsSpace (cleanAddress s).data ∧
      NoWsPair (cleanAddress s).data ∧
      (∀ b ∈ (cleanAddress s).data.head?, isWsChar b = false) ∧
      (∀ b ∈ (cleanAddress s).data.getLast?, isWsChar b = false)) ∧
    cleanAddress "Calle   el   Palmar   181" = "Calle el Palmar 181" ∧
    cleanAddress ", Calle 123 ," = "Calle 123" := by
  refine ⟨?_, by decide, by decide⟩
  intro s
  obtain ⟨hw, hn, hh, hl⟩ := cleanAddressL_spec s.data
  refine ⟨?_, ?_, hw, hn, hh, hl⟩
  · intro hmem
    exact absurd (hw '\n' hmem (by decide)) (by decide)
  · intro hmem
    exact absurd (hw '\t' hmem (by decide)) (by decide)

/-- C4 witness: the universal part evaluated on a concrete dirty string
(`" Calle\t 12 "` cleans to `"Calle 12"`). -/
theorem C4_witness :
    (' ' ∈ (cleanAddress " Calle\t 12 ").data ∧ (' ' : Char) = ' ') ∧
    ('C' ∈ (cleanAddress " Calle\t 12 ").data.head? ∧ isWsChar 'C' = false) :=
  ⟨⟨by decide,
    (C4_whitespace_normal.1 " Calle\t 12 ").2.2.1 ' ' (by decide) (by decide)⟩,
   ⟨by decide,
    (C4_whitespace_normal.1 " Calle\t 12 ").2.2.2.2.1 'C' (by decide)⟩⟩

end Clinicsay
